import Mathlib

/-!
Verification development for the DataProcessing pipeline.

Shallow embedding of the Python sources under `src/`:
`processors/relationship_mapper.py`, `processors/organization_deduplicator.py`,
`processors/ai_enhancer.py`, `processors/entity_recognizer.py`,
`processors/text_chunker.py`, `extractors/wikipedia_extractor.py`,
`utils/retry.py`.

Python dictionaries are modelled as insertion-ordered association lists
(`List (String × α)`) with an overwrite-preserving-position update `dset`,
matching CPython dict semantics.  Python truthiness of optional strings
(`if x:` where `x` is `None` or a `str`) is modelled by `truthy`.
-/

namespace DataProc

/-- Python truthiness of an optional string: `None` and `""` are falsy. -/
def truthy : Option String → Bool
  | none => false
  | some s => s ≠ ""

/-- Rendering of an optional string inside a Python f-string:
`None` prints as `"None"`. -/
def fmtOpt : Option String → String
  | none => "None"
  | some s => s

/-- Python dict assignment `m[k] = v`: if `k` is present its value is updated
in place (keeping its position in insertion order), otherwise the pair is
appended. -/
def dset (m : List (String × α)) (k : String) (v : α) : List (String × α) :=
  if m.any (fun p => p.1 = k) then
    m.map (fun p => if p.1 = k then (k, v) else p)
  else
    m ++ [(k, v)]

/-- Python `k in m` for a dict modelled as an association list. -/
def dmem (m : List (String × α)) (k : String) : Bool :=
  m.any (fun p => p.1 = k)

/-- Python `str.strip()`: drop whitespace from both ends. -/
def pyStrip (s : String) : String :=
  ⟨((s.data.dropWhile Char.isWhitespace).reverse.dropWhile
    Char.isWhitespace).reverse⟩

theorem lookup_map_overwrite (l : List (String × α)) (k k' : String) (v : α) :
    (l.map (fun p => if p.1 = k then (k, v) else p)).lookup k'
      = if k' = k then (if l.any (fun p => p.1 = k) then some v else none)
        else l.lookup k' := by
  induction l with
  | nil => by_cases hk : k' = k <;> simp [List.lookup, hk]
  | cons p rest ih =>
    simp only [List.map_cons, List.any_cons]
    by_cases hp : p.1 = k
    · rw [if_pos hp]
      by_cases hk : k' = k
      · subst hk
        simp [List.lookup, hp]
      · have hne : (k' == k) = false := beq_eq_false_iff_ne.mpr hk
        have hne' : (k' == p.1) = false :=
          beq_eq_false_iff_ne.mpr (by rw [hp]; exact hk)
        simp [List.lookup, hne, hne', ih, if_neg hk]
    · rw [if_neg hp]
      by_cases hk : k' = k
      · subst hk
        have hne' : (k' == p.1) = false :=
          beq_eq_false_iff_ne.mpr (fun h => hp h.symm)
        rw [if_pos rfl]
        simp only [decide_eq_false hp, Bool.false_or]
        simp [List.lookup, hne', ih]
      · by_cases hkp : k' = p.1
        · simp [List.lookup, hkp, hp, if_neg hk]
        · have hne' : (k' == p.1) = false := beq_eq_false_iff_ne.mpr hkp
          simp [List.lookup, hne', ih, if_neg hk]

theorem lookup_append_assoc (l₁ l₂ : List (String × α)) (k : String) :
    (l₁ ++ l₂).lookup k = ((l₁.lookup k).or (l₂.lookup k)) := by
  induction l₁ with
  | nil => simp [List.lookup]
  | cons p rest ih =>
    by_cases hk : k = p.1
    · simp [List.lookup, hk, Option.or]
    · have : (k == p.1) = false := by simp [hk]
      simp [List.lookup, this, ih]

theorem lookup_eq_none_of_not_any (l : List (String × α)) (k : String)
    (h : l.any (fun p => p.1 = k) = false) : l.lookup k = none := by
  induction l with
  | nil => simp [List.lookup]
  | cons p rest ih =>
    simp only [List.any_cons, Bool.or_eq_false_iff, decide_eq_false_iff_not] at h
    have : (k == p.1) = false := by
      simp only [beq_eq_false_iff_ne, ne_eq]
      intro hh; exact h.1 hh.symm
    simp [List.lookup, this, ih h.2]

theorem lookup_dset (m : List (String × α)) (k k' : String) (v : α) :
    (dset m k v).lookup k' = if k' = k then some v else m.lookup k' := by
  unfold dset
  by_cases hmem : m.any (fun p => p.1 = k)
  · rw [if_pos hmem, lookup_map_overwrite, hmem]
    simp
  · rw [Bool.not_eq_true] at hmem
    rw [if_neg (by simp [hmem]), lookup_append_assoc]
    by_cases hk : k' = k
    · subst hk
      rw [lookup_eq_none_of_not_any m k' hmem]
      simp [List.lookup, Option.or]
    · have hne : (k' == k) = false := beq_eq_false_iff_ne.mpr hk
      simp only [List.lookup, hne, if_neg hk]
      cases m.lookup k' <;> simp [Option.or]

/-- A key present before a dict assignment is still present afterwards. -/
theorem lookup_dset_isSome (m : List (String × α)) (k k' : String) (v : α)
    (h : (m.lookup k').isSome) : ((dset m k v).lookup k').isSome := by
  rw [lookup_dset]
  by_cases hk : k' = k <;> simp [hk, h]

/-- Any value found in a dict built by repeated assignment comes either from
the initial dict or from one of the assigned pairs. -/
theorem lookup_foldl_dset_mem (ps : List (String × α)) :
    ∀ (m : List (String × α)) (k : String) (v : α),
      ((ps.foldl (fun m p => dset m p.1 p.2) m).lookup k = some v) →
      m.lookup k = some v ∨ v ∈ ps.map Prod.snd := by
  induction ps with
  | nil => intro m k v h; exact Or.inl h
  | cons p rest ih =>
    intro m k v h
    rcases ih (dset m p.1 p.2) k v h with h' | h'
    · rw [lookup_dset] at h'
      by_cases hk : k = p.1
      · rw [if_pos hk] at h'
        have hv : v = p.2 := (Option.some_inj.mp h').symm
        exact Or.inr (by simp [hv])
      · rw [if_neg hk] at h'
        exact Or.inl h'
    · exact Or.inr (by simp [h'])

theorem lookup_foldl_dset_isSome_of_mem (ps : List (String × α)) :
    ∀ (m : List (String × α)) (k : String),
      (k ∈ ps.map Prod.fst ∨ (m.lookup k).isSome) →
      ((ps.foldl (fun m p => dset m p.1 p.2) m).lookup k).isSome := by
  induction ps with
  | nil =>
    intro m k h
    rcases h with h | h
    · simp at h
    · simpa using h
  | cons p rest ih =>
    intro m k h
    apply ih
    rcases h with h | h
    · rw [List.map_cons] at h
      rcases List.mem_cons.mp h with h' | h'
      · right
        rw [lookup_dset, if_pos h']
        rfl
      · exact Or.inl h'
    · exact Or.inr (lookup_dset_isSome _ _ _ _ h)

/-! ### Decimal rendering: Python `f"{n:03d}"` -/

/-- One decimal digit as a character (`0 ≤ d ≤ 9`). -/
def digitChar10 (d : Nat) : Char := Char.ofNat (48 + d)

/-- Numeric value of a digit character. -/
def digitVal (c : Char) : Nat := c.toNat - 48

/-- Little-endian decimal digits of `n`, computed with structural fuel
(`fuel ≥ n` suffices); `0` has no digits. -/
def digitsGo : Nat → Nat → List Char
  | _, 0 => []
  | 0, _ + 1 => []
  | f + 1, n + 1 => digitChar10 ((n + 1) % 10) :: digitsGo f ((n + 1) / 10)

/-- Little-endian decimal digits of `n` (`[]` for `0`). -/
def rawDigits (n : Nat) : List Char := digitsGo n n

/-- Characters of the decimal representation of `n`, most significant first. -/
def decChars (n : Nat) : List Char := (rawDigits n).reverse

/-- Python `f"{n:03d}"`: the decimal representation of `n`, left-padded with
`'0'` to a minimum width of 3. -/
def pad3 (n : Nat) : String :=
  let ds := decChars n
  if ds.length < 3 then ⟨List.replicate (3 - ds.length) '0' ++ ds⟩ else ⟨ds⟩

theorem digitsGo_congr : ∀ (n f f' : Nat), n ≤ f → n ≤ f' →
    digitsGo f n = digitsGo f' n := by
  intro n
  induction n using Nat.strong_induction_on with
  | _ n ih =>
    intro f f' hf hf'
    match n, f, f', hf, hf' with
    | 0, f, f', _, _ => cases f <;> cases f' <;> rfl
    | n + 1, f + 1, f' + 1, hf, hf' =>
      show digitChar10 _ :: digitsGo f ((n + 1) / 10)
          = digitChar10 _ :: digitsGo f' ((n + 1) / 10)
      have hdiv : (n + 1) / 10 < n + 1 := Nat.div_lt_self (Nat.succ_pos n) (by omega)
      rw [ih ((n + 1) / 10) hdiv f f' (by omega) (by omega),
          ih ((n + 1) / 10) hdiv f' f' (by omega) (by omega)]

theorem rawDigits_eq_cons (n : Nat) (hn : n ≠ 0) :
    rawDigits n = digitChar10 (n % 10) :: rawDigits (n / 10) := by
  match n, hn with
  | n + 1, _ =>
    show digitChar10 _ :: digitsGo n ((n + 1) / 10) = _
    have hdiv : (n + 1) / 10 ≤ n := by omega
    rw [digitsGo_congr ((n + 1) / 10) n ((n + 1) / 10) hdiv (Nat.le_refl _)]
    rfl

/-- Value of a little-endian digit list. -/
def valDigits : List Char → Nat
  | [] => 0
  | c :: cs => digitVal c + 10 * valDigits cs

theorem digitVal_digitChar10 (d : Nat) (hd : d < 10) :
    digitVal (digitChar10 d) = d := by
  interval_cases d <;> decide

theorem valDigits_rawDigits (n : Nat) : valDigits (rawDigits n) = n := by
  induction n using Nat.strong_induction_on with
  | _ n ih =>
    rcases Nat.eq_zero_or_pos n with h0 | hpos
    · subst h0; rfl
    · rw [rawDigits_eq_cons n (by omega), valDigits,
        digitVal_digitChar10 _ (Nat.mod_lt n (by omega)),
        ih (n / 10) (Nat.div_lt_self hpos (by omega))]
      omega

theorem rawDigits_injective : Function.Injective rawDigits := by
  intro a b h
  have := valDigits_rawDigits a
  rw [h, valDigits_rawDigits] at this
  omega

theorem rawDigits_all_digit (n : Nat) : ∀ c ∈ rawDigits n, c.isDigit = true := by
  induction n using Nat.strong_induction_on with
  | _ n ih =>
    rcases Nat.eq_zero_or_pos n with h0 | hpos
    · subst h0; intro c hc; simp [rawDigits, digitsGo] at hc
    · rw [rawDigits_eq_cons n (by omega)]
      intro c hc
      rcases List.mem_cons.mp hc with hc | hc
      · subst hc
        have h10 : n % 10 < 10 := Nat.mod_lt n (by omega)
        revert h10
        generalize n % 10 = m
        intro h10
        interval_cases m <;> decide
      · exact ih (n / 10) (Nat.div_lt_self hpos (by omega)) c hc

theorem rawDigits_length_le (k : Nat) : ∀ n, n < 10 ^ k →
    (rawDigits n).length ≤ k := by
  induction k with
  | zero =>
    intro n hn
    interval_cases n
    simp [rawDigits, digitsGo]
  | succ k ih =>
    intro n hn
    rcases Nat.eq_zero_or_pos n with h0 | hpos
    · subst h0; simp [rawDigits, digitsGo]
    · rw [rawDigits_eq_cons n (by omega), List.length_cons]
      have hps : 10 ^ (k + 1) = 10 ^ k * 10 := pow_succ 10 k
      have : n / 10 < 10 ^ k := by omega
      exact Nat.succ_le_succ (ih (n / 10) this)

/-- The most significant digit of a positive number is not `'0'`. -/
theorem decChars_head_ne_zero (n : Nat) (hpos : 0 < n) :
    ∀ c cs, decChars n = c :: cs → c ≠ '0' := by
  induction n using Nat.strong_induction_on with
  | _ n ih =>
    intro c cs hical
    rw [decChars, rawDigits_eq_cons n (by omega), List.reverse_cons] at hical
    rcases Nat.eq_zero_or_pos (n / 10) with h0 | hpos'
    · have hr : rawDigits (n / 10) = [] := by rw [h0]; rfl
      rw [hr] at hical
      simp only [List.reverse_nil, List.nil_append, List.cons.injEq] at hical
      have h1 : 1 ≤ n % 10 := by
        have := Nat.mod_add_div n 10
        omega
      have h10 : n % 10 < 10 := Nat.mod_lt n (by omega)
      rw [← hical.1]
      revert h1 h10
      generalize n % 10 = m
      intro h1 h10
      interval_cases m <;> decide
    · rcases hrev : (rawDigits (n / 10)).reverse with _ | ⟨c', cs'⟩
      · exfalso
        have : rawDigits (n / 10) = [] := by
          have := congrArg List.reverse hrev
          simpa using this
        rw [rawDigits_eq_cons (n / 10) (by omega)] at this
        cases this
      · rw [hrev] at hical
        simp only [List.cons_append, List.cons.injEq] at hical
        have := ih (n / 10) (Nat.div_lt_self (by omega) (by omega)) hpos' c' cs'
          (by rw [decChars, hrev])
        rw [← hical.1]
        exact this

theorem dropWhile_replicate_append (p : α → Bool) (a : α) (hp : p a = true)
    (k : Nat) (l : List α) :
    (List.replicate k a ++ l).dropWhile p = l.dropWhile p := by
  induction k with
  | zero => simp
  | succ k ih => simpa [List.replicate_succ, List.dropWhile, hp] using ih

theorem dropWhile_zero_decChars (n : Nat) :
    (decChars n).dropWhile (fun c => c == '0') = decChars n := by
  rcases Nat.eq_zero_or_pos n with h0 | hpos
  · subst h0; rfl
  · rcases hd : decChars n with _ | ⟨c, cs⟩
    · rfl
    · have hc := decChars_head_ne_zero n hpos c cs hd
      rw [List.dropWhile]
      have : (c == '0') = false := beq_eq_false_iff_ne.mpr hc
      rw [this]

theorem pad3_injective : Function.Injective pad3 := by
  intro a b h
  have hdata : (pad3 a).data = (pad3 b).data := by rw [h]
  have key : ∀ n : Nat, (pad3 n).data.dropWhile (fun c => c == '0') = decChars n := by
    intro n
    unfold pad3
    by_cases hl : (decChars n).length < 3
    · simp only [if_pos hl]
      rw [dropWhile_replicate_append _ _ (by decide), dropWhile_zero_decChars]
    · simp only [if_neg hl]
      exact dropWhile_zero_decChars n
  have : decChars a = decChars b := by
    rw [← key a, ← key b, hdata]
  have : rawDigits a = rawDigits b := by
    have := congrArg List.reverse this
    simpa [decChars] using this
  exact rawDigits_injective this

theorem pad3_length_eq_three (n : Nat) (hn : n < 1000) :
    (pad3 n).data.length = 3 := by
  have hle : (decChars n).length ≤ 3 := by
    have := rawDigits_length_le 3 n (by omega)
    simpa [decChars] using this
  unfold pad3
  by_cases hl : (decChars n).length < 3
  · simp only [if_pos hl, List.length_append, List.length_replicate]
    omega
  · simp only [if_neg hl]
    omega

theorem pad3_all_digit (n : Nat) : ∀ c ∈ (pad3 n).data, c.isDigit = true := by
  have hdec : ∀ c ∈ decChars n, c.isDigit = true := by
    intro c hc
    exact rawDigits_all_digit n c (by simpa [decChars] using hc)
  unfold pad3
  by_cases hl : (decChars n).length < 3
  · simp only [if_pos hl]
    intro c hc
    rcases List.mem_append.mp hc with hc | hc
    · have := List.eq_of_mem_replicate hc
      subst this; decide
    · exact hdec c hc
  · simp only [if_neg hl]
    exact hdec

/-! ### The spec's ID format `^[A-Z]+\d{3}$`

Since uppercase letters and decimal digits are disjoint character classes,
the regex is equivalent to: a non-empty uppercase prefix followed by exactly
three digits. -/

/-- `[A-Z]` as a character test. -/
def isUpperAZ (c : Char) : Bool := 'A' ≤ c && c ≤ 'Z'

/-- Matching of the spec regex `^[A-Z]+\d{3}$`. -/
def matchesIdRegex3 (s : String) : Bool :=
  let ups := s.data.takeWhile isUpperAZ
  let rest := s.data.dropWhile isUpperAZ
  decide (ups ≠ []) && decide (rest.length = 3) && rest.all Char.isDigit

theorem takeWhile_append_of_all (p : α → Bool) (l₁ l₂ : List α)
    (h : ∀ a ∈ l₁, p a = true) :
    (l₁ ++ l₂).takeWhile p = l₁ ++ l₂.takeWhile p := by
  induction l₁ with
  | nil => simp
  | cons a l ih =>
    simp only [List.cons_append, List.takeWhile, h a (by simp), List.append_eq]
    rw [ih (fun a ha => h a (by simp [ha]))]

theorem dropWhile_append_of_all (p : α → Bool) (l₁ l₂ : List α)
    (h : ∀ a ∈ l₁, p a = true) :
    (l₁ ++ l₂).dropWhile p = l₂.dropWhile p := by
  induction l₁ with
  | nil => simp
  | cons a l ih =>
    simp only [List.cons_append, List.dropWhile, h a (by simp), List.append_eq]
    exact ih (fun a ha => h a (by simp [ha]))

theorem rawDigits_not_upper (n : Nat) :
    ∀ c ∈ rawDigits n, isUpperAZ c = false := by
  induction n using Nat.strong_induction_on with
  | _ n ih =>
    rcases Nat.eq_zero_or_pos n with h0 | hpos
    · subst h0; intro c hc; simp [rawDigits, digitsGo] at hc
    · rw [rawDigits_eq_cons n (by omega)]
      intro c hc
      rcases List.mem_cons.mp hc with hc | hc
      · subst hc
        have h10 : n % 10 < 10 := Nat.mod_lt n (by omega)
        revert h10
        generalize n % 10 = m
        intro h10
        interval_cases m <;> decide
      · exact ih (n / 10) (Nat.div_lt_self hpos (by omega)) c hc

theorem pad3_not_upper (n : Nat) : ∀ c ∈ (pad3 n).data, isUpperAZ c = false := by
  have hdec : ∀ c ∈ decChars n, isUpperAZ c = false := by
    intro c hc
    exact rawDigits_not_upper n c (by simpa [decChars] using hc)
  unfold pad3
  by_cases hl : (decChars n).length < 3
  · simp only [if_pos hl]
    intro c hc
    rcases List.mem_append.mp hc with hc | hc
    · have := List.eq_of_mem_replicate hc
      subst this; decide
    · exact hdec c hc
  · simp only [if_neg hl]
    exact hdec

/-- A non-empty all-uppercase prefix followed by the padded digits of
`n < 1000` matches `^[A-Z]+\d{3}$`. -/
theorem matchesIdRegex3_prefix_pad3 (pre : List Char) (n : Nat)
    (hpre : pre ≠ []) (hup : ∀ c ∈ pre, isUpperAZ c = true) (hn : n < 1000) :
    matchesIdRegex3 ⟨pre ++ (pad3 n).data⟩ = true := by
  unfold matchesIdRegex3
  have hrest0 : ∀ c ∈ (pad3 n).data, isUpperAZ c = false := pad3_not_upper n
  have htake : (pre ++ (pad3 n).data).takeWhile isUpperAZ = pre := by
    rw [takeWhile_append_of_all _ _ _ hup]
    rcases hd : (pad3 n).data with _ | ⟨c, cs⟩
    · simp
    · rw [List.takeWhile]
      have : isUpperAZ c = false := hrest0 c (by rw [hd]; simp)
      rw [this]
      simp
  have hdrop : (pre ++ (pad3 n).data).dropWhile isUpperAZ = (pad3 n).data := by
    rw [dropWhile_append_of_all _ _ _ hup]
    rcases hd : (pad3 n).data with _ | ⟨c, cs⟩
    · simp
    · rw [List.dropWhile]
      have : isUpperAZ c = false := hrest0 c (by rw [hd]; simp)
      rw [this]
  show (_ && _ && _) = true
  rw [show (⟨pre ++ (pad3 n).data⟩ : String).data = pre ++ (pad3 n).data from rfl,
    htake, hdrop]
  simp only [Bool.and_eq_true, decide_eq_true_eq]
  refine ⟨⟨hpre, pad3_length_eq_three n hn⟩, ?_⟩
  exact List.all_eq_true.mpr (pad3_all_digit n)

/-! ### Entity records (the dicts flowing through `relationship_mapper.py`) -/

/-- A person record.  Before relationship mapping, `organization` holds the
free-text name extracted by the enrichment stage (Python uses
`person.get('organization', '')`, so `none` and `some ""` both model a
missing/empty value); after mapping it holds an organization ID or `none`. -/
structure Person where
  name : String := ""
  currentRole : String := ""
  organization : Option String := none
  party : Option String := none
  id : Option String := none
  deriving Repr, DecidableEq

/-- An organization record; `sector` and `parentOrganization` hold names
before mapping and IDs afterwards. -/
structure Org where
  id : Option String := none
  name : String := ""
  sector : Option String := none
  parentOrganization : Option String := none
  deriving Repr, DecidableEq

/-- A political party record (also the shape returned by
`EntityRecognizer.extract_party`). -/
structure Party where
  name : String := ""
  abbreviation : String := ""
  color : String := ""
  id : Option String := none
  deriving Repr, DecidableEq

/-- A sector record. -/
structure Sector where
  name : String := ""
  category : String := ""
  description : String := ""
  id : Option String := none
  deriving Repr, DecidableEq

/-- The mutable dictionaries of a `RelationshipMapper` instance. -/
structure MapperState where
  personIds : List (String × String) := []
  organizationIds : List (String × String) := []
  partyIds : List (String × String) := []
  sectorIds : List (String × String) := []
  idToPerson : List (String × String) := []
  idToOrganization : List (String × String) := []
  idToParty : List (String × String) := []
  idToSector : List (String × String) := []
  deriving Repr, DecidableEq

/-- The `entities` dictionary passed between pipeline stages. -/
structure Entities where
  people : List Person := []
  organizations : List Org := []
  parties : List Party := []
  sectors : List Sector := []
  deriving Repr, DecidableEq

/-! ### `RelationshipMapper.assign_all_ids` -/

/-- `RelationshipMapper._assign_people_ids`: `P###` IDs in input order
starting at 1.  The Python loop fills the result list and the two lookup
dicts in one pass; the three passes here perform the same independent
writes. -/
def assignPeopleIds (people : List Person) :
    List Person × List (String × String) × List (String × String) :=
  let pairs := List.enumFrom 1 people
  (pairs.map (fun q => { q.2 with id := some ("P" ++ pad3 q.1) }),
   pairs.foldl (fun m q => dset m q.2.name ("P" ++ pad3 q.1)) [],
   pairs.foldl (fun m q => dset m ("P" ++ pad3 q.1) q.2.name) [])

/-- Common shape of `_assign_organization_ids` / `_assign_party_ids` /
`_assign_sector_ids`: iterate `sorted(d.items())` (Python sorts the `(key,
value)` tuples; dict keys are unique, so this is a sort by key), number from
1, and fill the forward and reverse ID dicts. -/
def assignKeyedIds (pre : String) (setId : α → String → α)
    (items : List (String × α)) :
    List α × List (String × String) × List (String × String) :=
  let sorted := items.mergeSort (fun a b => a.1 ≤ b.1)
  let pairs := List.enumFrom 1 sorted
  (pairs.map (fun q => setId q.2.2 (pre ++ pad3 q.1)),
   pairs.foldl (fun m q => dset m q.2.1 (pre ++ pad3 q.1)) [],
   pairs.foldl (fun m q => dset m (pre ++ pad3 q.1) q.2.1) [])

/-- `RelationshipMapper.assign_all_ids`. -/
def assignAllIds (people : List Person) (organizations : List (String × Org))
    (parties : List (String × Party)) (sectors : List (String × Sector)) :
    MapperState × Entities :=
  let pres := assignPeopleIds people
  let ores := assignKeyedIds "O" (fun o i => { o with id := some i }) organizations
  let pares := assignKeyedIds "PTY" (fun p i => { p with id := some i }) parties
  let seres := assignKeyedIds "SEC" (fun s i => { s with id := some i }) sectors
  ({ personIds := pres.2.1, organizationIds := ores.2.1,
     partyIds := pares.2.1, sectorIds := seres.2.1,
     idToPerson := pres.2.2, idToOrganization := ores.2.2,
     idToParty := pares.2.2, idToSector := seres.2.2 },
   { people := pres.1, organizations := ores.1,
     parties := pares.1, sectors := seres.1 })

/-! ### `EntityRecognizer.extract_party`

The compiled pattern is the parenthesised single-letter party code with an
optional dash and two-letter region code, under `re.IGNORECASE`; `re.search`
takes the leftmost match and only its captured letter is used.  Case folding
is modelled on ASCII. -/

/-- The character class `[RDI]` under `re.IGNORECASE`. -/
def isRDI (c : Char) : Bool := c.toUpper = 'R' || c.toUpper = 'D' || c.toUpper = 'I'

/-- The character class `[A-Z]` under `re.IGNORECASE` (an ASCII letter). -/
def isAsciiAlpha (c : Char) : Bool := ('A' ≤ c && c ≤ 'Z') || ('a' ≤ c && c ≤ 'z')

/-- Try to match the party pattern at the start of the text, returning the
captured letter. -/
def partyMatchAt : List Char → Option Char
  | '(' :: c :: ')' :: _ => if isRDI c then some c else none
  | '(' :: c :: '-' :: a :: b :: ')' :: _ =>
    if isRDI c && isAsciiAlpha a && isAsciiAlpha b then some c else none
  | _ => none

/-- `re.search`: the captured letter of the leftmost match, if any. -/
def scanParty : List Char → Option Char
  | [] => none
  | c :: rest =>
    match partyMatchAt (c :: rest) with
    | some x => some x
    | none => scanParty rest

/-- `EntityRecognizer.extract_party`, parameterised by the party table from
`party_colors.json` (the config file itself is not part of `src/`). -/
def extractParty (cfg : List Party) (title : String) : Option Party :=
  if title = "" then none
  else
    match scanParty title.data with
    | none => none
    | some c =>
      match cfg.find? (fun p => p.abbreviation == String.singleton c.toUpper) with
      | none => none
      | some p =>
        some { name := p.name, abbreviation := p.abbreviation, color := p.color }

/-! ### `RelationshipMapper.map_relationships` -/

/-- `RelationshipMapper._map_person_organizations`. -/
def mapPersonOrganizations (st : MapperState) (people : List Person) :
    List Person :=
  people.map (fun p =>
    let orgName := pyStrip (p.organization.getD "")
    if orgName ≠ "" then
      match st.organizationIds.lookup orgName with
      | some oid => { p with organization := some oid }
      | none => { p with organization := none }
    else { p with organization := none })

/-- `RelationshipMapper._map_person_parties` (re-derives the party from the
role text via `EntityRecognizer.extract_party`). -/
def mapPersonParties (cfg : List Party) (st : MapperState)
    (people : List Person) : List Person :=
  people.map (fun p =>
    if p.currentRole ≠ "" then
      match extractParty cfg p.currentRole with
      | some pa =>
        match st.partyIds.lookup pa.name with
        | some pid => { p with party := some pid }
        | none => { p with party := none }
      | none => { p with party := none }
    else { p with party := none })

/-- `RelationshipMapper._map_organization_sectors`. -/
def mapOrganizationSectors (st : MapperState) (orgs : List Org) : List Org :=
  orgs.map (fun o =>
    match o.sector with
    | some sname =>
      if sname ≠ "" then
        match st.sectorIds.lookup sname with
        | some sid => { o with sector := some sid }
        | none => { o with sector := none }
      else { o with sector := none }
    | none => { o with sector := none })

/-- `RelationshipMapper._map_organization_hierarchies`. -/
def mapOrganizationHierarchies (st : MapperState) (orgs : List Org) : List Org :=
  orgs.map (fun o =>
    match o.parentOrganization with
    | some pname =>
      if pname ≠ "" then
        match st.organizationIds.lookup pname with
        | some pid => { o with parentOrganization := some pid }
        | none => { o with parentOrganization := none }
      else { o with parentOrganization := none }
    | none => { o with parentOrganization := none })

/-- `RelationshipMapper.map_relationships`. -/
def mapRelationships (cfg : List Party) (st : MapperState) (ents : Entities) :
    Entities :=
  { people := mapPersonParties cfg st (mapPersonOrganizations st ents.people),
    organizations :=
      mapOrganizationHierarchies st (mapOrganizationSectors st ents.organizations),
    parties := ents.parties,
    sectors := ents.sectors }

/-! ### `RelationshipMapper.validate_references` -/

/-- Dangling person → organization references. -/
def personOrgErrors (st : MapperState) (people : List Person) : List String :=
  people.filterMap (fun p =>
    match p.organization with
    | some oid =>
      if oid ≠ "" ∧ st.idToOrganization.lookup oid = none then
        some ("Person " ++ fmtOpt p.id
          ++ " references invalid organization ID: " ++ oid)
      else none
    | none => none)

/-- Dangling person → party references. -/
def personPartyErrors (st : MapperState) (people : List Person) : List String :=
  people.filterMap (fun p =>
    match p.party with
    | some pid =>
      if pid ≠ "" ∧ st.idToParty.lookup pid = none then
        some ("Person " ++ fmtOpt p.id ++ " references invalid party ID: " ++ pid)
      else none
    | none => none)

/-- Dangling organization → sector references. -/
def orgSectorErrors (st : MapperState) (orgs : List Org) : List String :=
  orgs.filterMap (fun o =>
    match o.sector with
    | some sid =>
      if sid ≠ "" ∧ st.idToSector.lookup sid = none then
        some ("Organization " ++ fmtOpt o.id
          ++ " references invalid sector ID: " ++ sid)
      else none
    | none => none)

/-- Dangling organization → parent references. -/
def orgParentErrors (st : MapperState) (orgs : List Org) : List String :=
  orgs.filterMap (fun o =>
    match o.parentOrganization with
    | some pid =>
      if pid ≠ "" ∧ st.idToOrganization.lookup pid = none then
        some ("Organization " ++ fmtOpt o.id
          ++ " references invalid parent ID: " ++ pid)
      else none
    | none => none)

/-- The linear scan `for o in organizations:` looking up the current id in
`_detect_circular_references`. -/
def findOrg (orgs : List Org) (c : String) : Option Org :=
  orgs.find? (fun o => o.id == some c)

/-- Does the optional id belong to the visited set? -/
def idInVisited (visited : List String) : Option String → Bool
  | some s => visited.contains s
  | none => false

theorem filter_length_mono (l : List α) (p q : α → Bool)
    (h : ∀ a, q a = true → p a = true) :
    (l.filter q).length ≤ (l.filter p).length := by
  induction l with
  | nil => simp
  | cons a l ih =>
    by_cases hq : q a = true
    · rw [List.filter_cons_of_pos hq, List.filter_cons_of_pos (h a hq)]
      simpa using ih
    · rw [List.filter_cons_of_neg (by simpa using hq)]
      by_cases hp : p a = true
      · rw [List.filter_cons_of_pos hp]
        exact le_trans ih (by simp)
      · rw [List.filter_cons_of_neg (by simpa using hp)]
        exact ih

theorem filter_length_lt (l : List α) (p q : α → Bool)
    (hmono : ∀ a, q a = true → p a = true) (x : α) (hx : x ∈ l)
    (hpx : p x = true) (hqx : q x = false) :
    (l.filter q).length < (l.filter p).length := by
  induction l with
  | nil => cases hx
  | cons a l ih =>
    rcases List.mem_cons.mp hx with rfl | hx'
    · rw [List.filter_cons_of_pos hpx, List.filter_cons_of_neg (by simp [hqx])]
      exact Nat.lt_succ_of_le (filter_length_mono l p q hmono)
    · by_cases hq : q a = true
      · rw [List.filter_cons_of_pos hq, List.filter_cons_of_pos (hmono a hq)]
        simpa using ih hx'
      · rw [List.filter_cons_of_neg (by simpa using hq)]
        by_cases hp : p a = true
        · rw [List.filter_cons_of_pos hp]
          exact Nat.lt_succ_of_le (le_of_lt (ih hx'))
        · rw [List.filter_cons_of_neg (by simpa using hp)]
          exact ih hx'

/-- The per-organization parent-chain walk of
`_detect_circular_references`: follow the parent pointer from `cur`,
returning `true` when an ID repeats within this walk.  Termination: each
step adds to `visited` the id of an organization found in `orgs` that was
not previously visited, so the number of organizations whose id is
unvisited strictly decreases. -/
def chainWalk (orgs : List Org) (visited : List String) (cur : Option String) :
    Bool :=
  match cur with
  | none => false
  | some c =>
    if c = "" then false
    else if hv : visited.contains c then true
    else
      match hf : findOrg orgs c with
      | none => false
      | some o => chainWalk orgs (c :: visited) o.parentOrganization
termination_by (orgs.filter (fun o => ! idInVisited visited o.id)).length
decreasing_by
  have hid : o.id = some c := by
    have := List.find?_some hf
    simpa [beq_iff_eq] using this
  have hcv : visited.contains c = false := by
    rw [Bool.not_eq_true] at hv
    exact hv
  refine filter_length_lt _ _ _ ?_ o (List.mem_of_find?_eq_some hf) ?_ ?_
  · intro a ha
    rw [Bool.not_eq_true'] at ha ⊢
    cases hid' : a.id with
    | none => rfl
    | some s =>
      rw [hid'] at ha
      simp only [idInVisited, List.contains_cons] at ha ⊢
      rcases Bool.or_eq_false_iff.mp ha with ⟨-, h2⟩
      exact h2
  · rw [hid]
    simp only [idInVisited]
    rw [hcv]
    rfl
  · rw [hid]
    simp only [idInVisited]
    rw [List.contains_cons]
    simp

/-- `RelationshipMapper._detect_circular_references`. -/
def detectCircularReferences (orgs : List Org) : List String :=
  orgs.filterMap (fun org =>
    if chainWalk orgs [] org.id then
      some ("Circular reference detected in organization hierarchy: "
        ++ fmtOpt org.id)
    else none)

/-- `RelationshipMapper.validate_references` (error list in source order:
person→org, person→party, org→sector, org→parent, then circular checks). -/
def validateReferences (st : MapperState) (ents : Entities) : List String :=
  personOrgErrors st ents.people ++ personPartyErrors st ents.people
    ++ orgSectorErrors st ents.organizations
    ++ orgParentErrors st ents.organizations
    ++ detectCircularReferences ents.organizations

/-! ### Cycle detection: correctness of the walk -/

theorem chainWalk_measure_decrease (orgs : List Org) (visited : List String)
    (c : String) (o : Org) (hfo : findOrg orgs c = some o)
    (hv : visited.contains c = false) :
    (orgs.filter (fun o' => ! idInVisited (c :: visited) o'.id)).length <
      (orgs.filter (fun o' => ! idInVisited visited o'.id)).length := by
  have hid : o.id = some c := by
    have := List.find?_some hfo
    simpa [beq_iff_eq] using this
  refine filter_length_lt _ _ _ ?_ o (List.mem_of_find?_eq_some hfo) ?_ ?_
  · intro a ha
    rw [Bool.not_eq_true'] at ha ⊢
    cases hid' : a.id with
    | none => rfl
    | some s =>
      rw [hid'] at ha
      simp only [idInVisited, List.contains_cons] at ha ⊢
      rcases Bool.or_eq_false_iff.mp ha with ⟨-, h2⟩
      exact h2
  · rw [hid]
    simp only [idInVisited]
    rw [hv]
    rfl
  · rw [hid]
    simp only [idInVisited]
    rw [List.contains_cons]
    simp

/-- If `S` is a set of non-empty ids closed under the recorded parent step,
then the walk started anywhere inside `S` reports a cycle. -/
theorem chainWalk_true_of_closed (orgs : List Org) (S : List String)
    (hcl : ∀ c ∈ S, c ≠ "" ∧ ∃ o, findOrg orgs c = some o ∧
      ∃ y, o.parentOrganization = some y ∧ y ∈ S) :
    ∀ (visited : List String) (c : String), c ∈ S →
      chainWalk orgs visited (some c) = true := by
  suffices h : ∀ (n : Nat) (visited : List String) (c : String),
      (orgs.filter (fun o => ! idInVisited visited o.id)).length = n →
      c ∈ S → chainWalk orgs visited (some c) = true by
    intro visited c hc
    exact h _ visited c rfl hc
  intro n
  induction n using Nat.strong_induction_on with
  | _ n ih =>
    intro visited c hmeas hc
    obtain ⟨hne, o, hfo, y, hpar, hyS⟩ := hcl c hc
    rw [chainWalk]
    rw [if_neg hne]
    by_cases hv : visited.contains c
    · rw [dif_pos hv]
    · rw [dif_neg hv]
      have hlt : (orgs.filter (fun o' => ! idInVisited (c :: visited) o'.id)).length < n := by
        rw [← hmeas]
        exact chainWalk_measure_decrease orgs visited c o hfo
          (by rw [Bool.not_eq_true] at hv; exact hv)
      split
      · rename_i hnone
        rw [hfo] at hnone
        cases hnone
      · rename_i o' hsome
        rw [hfo] at hsome
        injection hsome with ho
        subst ho
        rw [hpar]
        exact ih _ hlt (c :: visited) y rfl hyS

/-- `l` describes a cycle among organization ids: following the recorded
parent pointer (found by the same linear id scan the walk performs) from
`l[i]` reaches `l[(i+1) % l.length]`; pointers in a cycle are truthy
(non-empty), matching Python truthiness of the `while current:` guard. -/
def CyclicChain (orgs : List Org) (l : List String) : Prop :=
  ∀ i (h : i < l.length),
    l.get ⟨i, h⟩ ≠ "" ∧
    ∃ o, findOrg orgs (l.get ⟨i, h⟩) = some o ∧
      o.parentOrganization = some (l.get ⟨(i + 1) % l.length,
        Nat.mod_lt _ (Nat.lt_of_le_of_lt (Nat.zero_le i) h)⟩)

theorem cyclicChain_closed (orgs : List Org) (l : List String)
    (hcyc : CyclicChain orgs l) :
    ∀ c ∈ l, c ≠ "" ∧ ∃ o, findOrg orgs c = some o ∧
      ∃ y, o.parentOrganization = some y ∧ y ∈ l := by
  intro c hc
  obtain ⟨⟨i, hi⟩, rfl⟩ := List.mem_iff_get.mp hc
  obtain ⟨hne, o, hfo, hpar⟩ := hcyc i hi
  exact ⟨hne, o, hfo, _, hpar, List.get_mem _ _ _⟩

/-- **C1.**  For every entity set whose organizations' parent-ID pointers
form a cycle (a direct self-reference being the cycle of length 1),
`validate_references` reports at least one circular-reference error message.
Termination of the per-organization parent-chain walk on every input —
cyclic, acyclic, or reaching a dangling parent id — is witnessed by the
totality of `chainWalk`, whose well-founded recursion mirrors the
visited-set argument of the Python `while` loop. -/
theorem c1_validateReferences_reports_cycle (st : MapperState) (ents : Entities)
    (l : List String) (hl : l ≠ []) (hcyc : CyclicChain ents.organizations l) :
    ∃ e ∈ validateReferences st ents, ∃ oid,
      e = "Circular reference detected in organization hierarchy: " ++ oid := by
  have hlen : 0 < l.length := List.length_pos.mpr hl
  have hc0mem : l.get ⟨0, hlen⟩ ∈ l := List.get_mem _ _ _
  obtain ⟨hne, o, hfo, y, hpar, hyS⟩ :=
    cyclicChain_closed _ _ hcyc (l.get ⟨0, hlen⟩) hc0mem
  have hid : o.id = some (l.get ⟨0, hlen⟩) := by
    have := List.find?_some hfo
    simpa [beq_iff_eq] using this
  have homem : o ∈ ents.organizations := List.mem_of_find?_eq_some hfo
  have hwalk : chainWalk ents.organizations [] o.id = true := by
    rw [hid]
    exact chainWalk_true_of_closed _ l (cyclicChain_closed _ _ hcyc) []
      (l.get ⟨0, hlen⟩) hc0mem
  have hmsg : ("Circular reference detected in organization hierarchy: "
      ++ fmtOpt o.id) ∈ detectCircularReferences ents.organizations := by
    unfold detectCircularReferences
    apply List.mem_filterMap.mpr
    exact ⟨o, homem, by rw [if_pos hwalk]⟩
  refine ⟨_, ?_, fmtOpt o.id, rfl⟩
  unfold validateReferences
  simp only [List.mem_append]
  exact Or.inr hmsg

/-- Concrete self-referencing organization used as the C1 witness input. -/
def orgC1ex : Org :=
  { id := some "O001", name := "A", parentOrganization := some "O001" }

def entsC1ex : Entities := { organizations := [orgC1ex] }

theorem c1_witness :
    (["O001"] ≠ [] ∧ CyclicChain entsC1ex.organizations ["O001"]) ∧
    ∃ e ∈ validateReferences {} entsC1ex, ∃ oid,
      e = "Circular reference detected in organization hierarchy: " ++ oid := by
  have hcyc : CyclicChain entsC1ex.organizations ["O001"] := by
    intro i h
    have hi : i = 0 := Nat.lt_one_iff.mp h
    subst hi
    refine ⟨?_, orgC1ex, rfl, rfl⟩
    show ("O001" : String) ≠ ""
    decide
  exact ⟨⟨by decide, hcyc⟩,
    c1_validateReferences_reports_cycle {} entsC1ex ["O001"] (by decide) hcyc⟩

/-! ### C4: ID assignment order, uniqueness and format -/

/-- The sort `sorted(d.items())` performed by the keyed assigners. -/
def sortByKey (items : List (String × α)) : List (String × α) :=
  items.mergeSort (fun a b => a.1 ≤ b.1)

theorem getElem?_map_enumFrom (f : Nat × α → β) :
    ∀ (l : List α) (i j : Nat),
      ((List.enumFrom i l).map f)[j]? = (l[j]?).map (fun a => f (i + j, a)) := by
  intro l
  induction l with
  | nil => intro i j; simp
  | cons a l ih =>
    intro i j
    cases j with
    | zero => simp [List.enumFrom]
    | succ j =>
      simp only [List.enumFrom, List.map_cons, List.getElem?_cons_succ]
      rw [ih (i + 1) j]
      have : i + 1 + j = i + (j + 1) := by omega
      rw [this]

theorem assignPeopleIds_getElem? (people : List Person) (j : Nat) :
    (assignPeopleIds people).1[j]? =
      (people[j]?).map (fun q => { q with id := some ("P" ++ pad3 (j + 1)) }) := by
  show ((List.enumFrom 1 people).map _)[j]? = _
  rw [getElem?_map_enumFrom]
  have : 1 + j = j + 1 := by omega
  rw [this]

theorem assignKeyedIds_getElem? (pre : String) (setId : α → String → α)
    (items : List (String × α)) (j : Nat) :
    (assignKeyedIds pre setId items).1[j]? =
      ((sortByKey items)[j]?).map (fun q => setId q.2 (pre ++ pad3 (j + 1))) := by
  show ((List.enumFrom 1 (items.mergeSort _)).map _)[j]? = _
  rw [getElem?_map_enumFrom]
  have : 1 + j = j + 1 := by omega
  rw [this]
  rfl

theorem string_append_left_cancel (s t u : String) (h : s ++ t = s ++ u) :
    t = u := by
  have hd : s.data ++ t.data = s.data ++ u.data := congrArg String.data h
  have := List.append_cancel_left hd
  cases t; cases u
  exact congrArg String.mk (by simpa using this)

theorem prefix_pad3_injective (pre : String) :
    Function.Injective (fun n => pre ++ pad3 (n + 1)) := by
  intro a b hab
  have := string_append_left_cancel pre _ _ hab
  have := pad3_injective this
  omega

theorem length_assignPeopleIds (people : List Person) :
    (assignPeopleIds people).1.length = people.length := by
  show ((List.enumFrom 1 people).map _).length = _
  rw [List.length_map, List.enumFrom_length]

theorem length_assignKeyedIds (pre : String) (setId : α → String → α)
    (items : List (String × α)) :
    (assignKeyedIds pre setId items).1.length = items.length := by
  show ((List.enumFrom 1 (items.mergeSort _)).map _).length = _
  rw [List.length_map, List.enumFrom_length, List.length_mergeSort]

/-- The id column of an assignment result, as a function of the index. -/
theorem ids_map_eq_range (pre : String) (l : List β) (g : β → Option String)
    (n : Nat) (hlen : l.length = n)
    (hval : ∀ j, (l[j]?).map g = if j < n then some (some (pre ++ pad3 (j + 1))) else none) :
    l.map g = (List.range n).map (fun j => some (pre ++ pad3 (j + 1))) := by
  apply List.ext_getElem?
  intro j
  rw [List.getElem?_map, List.getElem?_map, hval j]
  by_cases hj : j < n
  · rw [if_pos hj, List.getElem?_range hj]
    rfl
  · rw [if_neg hj, List.getElem?_eq_none (by simpa using Nat.le_of_not_lt hj)]
    rfl

theorem nodup_ids_range (pre : String) (n : Nat) :
    ((List.range n).map (fun j => some (pre ++ pad3 (j + 1)))).Nodup := by
  apply List.Nodup.map ?_ (List.nodup_range n)
  intro a b hab
  have : pre ++ pad3 (a + 1) = pre ++ pad3 (b + 1) := Option.some_inj.mp hab
  exact prefix_pad3_injective pre this

theorem sortByKey_perm (items : List (String × α)) :
    (sortByKey items).Perm items :=
  List.mergeSort_perm items _

theorem sortByKey_sorted (items : List (String × α)) :
    (sortByKey items).Pairwise (fun a b => a.1 ≤ b.1) := by
  have h : (List.mergeSort items
      (fun a b : String × α => (decide (a.1 ≤ b.1) : Bool))).Pairwise
      (fun a b => (decide (a.1 ≤ b.1) : Bool) = true) := List.sorted_mergeSort
    (by intro a b c hab hbc
        simp only [decide_eq_true_eq] at hab hbc ⊢
        exact le_trans hab hbc)
    (by intro a b
        simp only [Bool.or_eq_true, decide_eq_true_eq]
        exact le_total a.1 b.1)
    items
  exact h.imp (by intro a b hab; simpa using hab)

/-- The id column of a keyed assignment, indexed by position. -/
theorem assignKeyedIds_ids (pre : String) (setId : α → String → α)
    (getId : α → Option String) (hset : ∀ a i, getId (setId a i) = some i)
    (items : List (String × α)) :
    (assignKeyedIds pre setId items).1.map getId
      = (List.range items.length).map (fun j => some (pre ++ pad3 (j + 1))) := by
  apply ids_map_eq_range _ _ _ _ (length_assignKeyedIds pre setId items)
  intro j
  rw [assignKeyedIds_getElem?]
  by_cases hj : j < items.length
  · have hj' : j < (sortByKey items).length := by
      rw [sortByKey, List.length_mergeSort]; exact hj
    rw [List.getElem?_eq_getElem hj', if_pos hj]
    simp [hset]
  · have hnone : (sortByKey items)[j]? = none := by
      apply List.getElem?_eq_none
      rw [sortByKey, List.length_mergeSort]
      exact Nat.le_of_not_lt hj
    rw [hnone, if_neg hj]
    rfl

/-- The id column of the people assignment, indexed by position. -/
theorem assignPeopleIds_ids (people : List Person) :
    (assignPeopleIds people).1.map Person.id
      = (List.range people.length).map (fun j => some ("P" ++ pad3 (j + 1))) := by
  apply ids_map_eq_range _ _ _ _ (length_assignPeopleIds people)
  intro j
  rw [assignPeopleIds_getElem?]
  by_cases hj : j < people.length
  · rw [List.getElem?_eq_getElem hj, if_pos hj]
    rfl
  · rw [List.getElem?_eq_none (Nat.le_of_not_lt hj), if_neg hj]
    rfl

theorem matches_prefix_string (pre : String) (n : Nat)
    (hne : pre.data ≠ []) (hup : ∀ c ∈ pre.data, isUpperAZ c = true)
    (hn : n < 1000) : matchesIdRegex3 (pre ++ pad3 n) = true :=
  matchesIdRegex3_prefix_pad3 pre.data n hne hup hn

/-- The four format clauses of C4, bundled. -/
def IdsWellFormatted (l : List (Option String)) : Prop :=
  ∀ oi ∈ l, ∃ s, oi = some s ∧ matchesIdRegex3 s = true

theorem idsWellFormatted_range (pre : String) (n : Nat)
    (hne : pre.data ≠ []) (hup : ∀ c ∈ pre.data, isUpperAZ c = true)
    (hn : n ≤ 999) :
    IdsWellFormatted ((List.range n).map (fun j => some (pre ++ pad3 (j + 1)))) := by
  intro oi hoi
  obtain ⟨j, hj, rfl⟩ := List.mem_map.mp hoi
  have hj' : j < n := List.mem_range.mp hj
  exact ⟨_, rfl, matches_prefix_string pre (j + 1) hne hup (by omega)⟩

/-- **C4 (amended).**  `assign_all_ids` gives people IDs in strict input
order (`P001` = first input row, position `j` gets `"P" ++ pad3 (j+1)`), and
gives organizations, parties and sectors IDs in lexicographic order of their
name keys, each type independently numbered from 1 with prefixes `O`, `PTY`,
`SEC`; within each type the assigned IDs are pairwise distinct.  Format
(amended): every assigned ID is the prefix followed by the index zero-padded
to a minimum of 3 digits, so IDs match `^[A-Z]+\d{3}$` whenever the entity
count is at most 999 — for 1000 or more entities of one type, the numeric
part grows to 4 digits (e.g. `P1000`) and the exact-3-digit pattern of the
claim fails. -/
theorem c4_assignAllIds_order_unique_format (people : List Person)
    (organizations : List (String × Org)) (parties : List (String × Party))
    (sectors : List (String × Sector)) :
    ((∀ j : Nat, (assignAllIds people organizations parties sectors).2.people[j]? =
        (people[j]?).map (fun q => { q with id := some ("P" ++ pad3 (j + 1)) })) ∧
      (∀ j : Nat, (assignAllIds people organizations parties sectors).2.organizations[j]? =
        ((sortByKey organizations)[j]?).map
          (fun q => { q.2 with id := some ("O" ++ pad3 (j + 1)) })) ∧
      (∀ j : Nat, (assignAllIds people organizations parties sectors).2.parties[j]? =
        ((sortByKey parties)[j]?).map
          (fun q => { q.2 with id := some ("PTY" ++ pad3 (j + 1)) })) ∧
      (∀ j : Nat, (assignAllIds people organizations parties sectors).2.sectors[j]? =
        ((sortByKey sectors)[j]?).map
          (fun q => { q.2 with id := some ("SEC" ++ pad3 (j + 1)) }))) ∧
    (((sortByKey organizations).Pairwise (fun a b => a.1 ≤ b.1) ∧
        (sortByKey organizations).Perm organizations) ∧
      ((sortByKey parties).Pairwise (fun a b => a.1 ≤ b.1) ∧
        (sortByKey parties).Perm parties) ∧
      ((sortByKey sectors).Pairwise (fun a b => a.1 ≤ b.1) ∧
        (sortByKey sectors).Perm sectors)) ∧
    (((assignAllIds people organizations parties sectors).2.people.map Person.id).Nodup ∧
      ((assignAllIds people organizations parties sectors).2.organizations.map Org.id).Nodup ∧
      ((assignAllIds people organizations parties sectors).2.parties.map Party.id).Nodup ∧
      ((assignAllIds people organizations parties sectors).2.sectors.map Sector.id).Nodup) ∧
    ((people.length ≤ 999 → IdsWellFormatted
        ((assignAllIds people organizations parties sectors).2.people.map Person.id)) ∧
      (organizations.length ≤ 999 → IdsWellFormatted
        ((assignAllIds people organizations parties sectors).2.organizations.map Org.id)) ∧
      (parties.length ≤ 999 → IdsWellFormatted
        ((assignAllIds people organizations parties sectors).2.parties.map Party.id)) ∧
      (sectors.length ≤ 999 → IdsWellFormatted
        ((assignAllIds people organizations parties sectors).2.sectors.map Sector.id))) := by
  have hpeq : (assignAllIds people organizations parties sectors).2.people
      = (assignPeopleIds people).1 := rfl
  have hoeq : (assignAllIds people organizations parties sectors).2.organizations
      = (assignKeyedIds "O" (fun o i => { o with id := some i }) organizations).1 := rfl
  have hpaeq : (assignAllIds people organizations parties sectors).2.parties
      = (assignKeyedIds "PTY" (fun p i => { p with id := some i }) parties).1 := rfl
  have hseeq : (assignAllIds people organizations parties sectors).2.sectors
      = (assignKeyedIds "SEC" (fun s i => { s with id := some i }) sectors).1 := rfl
  have hpid : (assignPeopleIds people).1.map Person.id
      = (List.range people.length).map (fun j => some ("P" ++ pad3 (j + 1))) :=
    assignPeopleIds_ids people
  have hoid := assignKeyedIds_ids "O" (fun o i => { o with id := some i })
    Org.id (fun a i => rfl) organizations
  have hpaid := assignKeyedIds_ids "PTY" (fun p i => { p with id := some i })
    Party.id (fun a i => rfl) parties
  have hseid := assignKeyedIds_ids "SEC" (fun s i => { s with id := some i })
    Sector.id (fun a i => rfl) sectors
  refine ⟨⟨?_, ?_, ?_, ?_⟩, ⟨?_, ?_, ?_⟩, ⟨?_, ?_, ?_, ?_⟩, ?_, ?_, ?_, ?_⟩
  · intro j; rw [hpeq]; exact assignPeopleIds_getElem? people j
  · intro j; rw [hoeq]; exact assignKeyedIds_getElem? _ _ organizations j
  · intro j; rw [hpaeq]; exact assignKeyedIds_getElem? _ _ parties j
  · intro j; rw [hseeq]; exact assignKeyedIds_getElem? _ _ sectors j
  · exact ⟨sortByKey_sorted organizations, sortByKey_perm organizations⟩
  · exact ⟨sortByKey_sorted parties, sortByKey_perm parties⟩
  · exact ⟨sortByKey_sorted sectors, sortByKey_perm sectors⟩
  · rw [hpeq, hpid]; exact nodup_ids_range "P" people.length
  · rw [hoeq, hoid]; exact nodup_ids_range "O" organizations.length
  · rw [hpaeq, hpaid]; exact nodup_ids_range "PTY" parties.length
  · rw [hseeq, hseid]; exact nodup_ids_range "SEC" sectors.length
  · intro hlen
    rw [hpeq, hpid]
    exact idsWellFormatted_range "P" people.length (by decide)
      (by intro c hc; simp at hc; subst hc; decide) hlen
  · intro hlen
    rw [hoeq, hoid]
    exact idsWellFormatted_range "O" organizations.length (by decide)
      (by intro c hc; simp at hc; subst hc; decide) hlen
  · intro hlen
    rw [hpaeq, hpaid]
    exact idsWellFormatted_range "PTY" parties.length (by decide)
      (by intro c hc; simp at hc; rcases hc with rfl | rfl | rfl <;> decide) hlen
  · intro hlen
    rw [hseeq, hseid]
    exact idsWellFormatted_range "SEC" sectors.length (by decide)
      (by intro c hc; simp at hc; rcases hc with rfl | rfl | rfl <;> decide) hlen

/-- A person record with all fields defaulted. -/
def personDefault : Person := {}

/-- A 1000-person roster (the smallest size at which the claimed exact
3-digit ID format breaks). -/
def peopleC4ex : List Person := List.replicate 1000 personDefault

/-- **C4 counterexample.**  On a 1000-person roster the 1000th person is
assigned the ID `P1000`, which does not match `^[A-Z]+\d{3}$`: the claimed
ID format is violated, while order and uniqueness still hold. -/
theorem c4_counterexample :
    ((assignAllIds peopleC4ex [] [] []).2.people.map Person.id)[999]? =
      some (some "P1000") ∧ matchesIdRegex3 "P1000" = false := by
  constructor
  · rw [List.getElem?_map]
    show Option.map Person.id ((assignPeopleIds peopleC4ex).1[999]?) = _
    rw [assignPeopleIds_getElem?]
    have h999 : peopleC4ex[999]? = some personDefault := by
      rw [show peopleC4ex = List.replicate 1000 personDefault from rfl]
      rw [List.getElem?_replicate]
      simp
    rw [h999]
    show some (some ("P" ++ pad3 1000)) = some (some "P1000")
    decide
  · decide

/-- C4 witness: on a one-person roster the theorem yields the well-formed ID
`P001` for the first input row. -/
theorem c4_witness :
    ((([({ name := "X" } : Person)].length ≤ 999) ∧
      some "P001" ∈ (assignAllIds [{ name := "X" }] [] [] []).2.people.map Person.id) ∧
    ∃ s, (some "P001" : Option String) = some s ∧ matchesIdRegex3 s = true) := by
  have hmem : some "P001" ∈
      (assignAllIds [({ name := "X" } : Person)] [] [] []).2.people.map Person.id := by
    show some "P001" ∈ (assignPeopleIds [({ name := "X" } : Person)]).1.map Person.id
    rw [assignPeopleIds_ids]
    decide
  refine ⟨⟨by decide, hmem⟩, ?_⟩
  exact (c4_assignAllIds_order_unique_format [{ name := "X" }] [] [] []).2.2.2.1
    (by decide) (some "P001") hmem

/-! ### C2: referential integrity of `map_relationships` -/

theorem assignKeyedIds_fwd_eq (pre : String) (setId : α → String → α)
    (items : List (String × α)) :
    (assignKeyedIds pre setId items).2.1 =
      ((List.enumFrom 1 (sortByKey items)).map
        (fun q => (q.2.1, pre ++ pad3 q.1))).foldl
          (fun m p => dset m p.1 p.2) [] := by
  show (List.enumFrom 1 (items.mergeSort _)).foldl _ [] = _
  rw [List.foldl_map]
  rfl

theorem assignKeyedIds_rev_eq (pre : String) (setId : α → String → α)
    (items : List (String × α)) :
    (assignKeyedIds pre setId items).2.2 =
      ((List.enumFrom 1 (sortByKey items)).map
        (fun q => (pre ++ pad3 q.1, q.2.1))).foldl
          (fun m p => dset m p.1 p.2) [] := by
  show (List.enumFrom 1 (items.mergeSort _)).foldl _ [] = _
  rw [List.foldl_map]
  rfl

/-- Every value of the forward name→id dict is a key of the reverse id→name
dict (both are filled pairwise in the same assignment loop). -/
theorem assignKeyedIds_linked (pre : String) (setId : α → String → α)
    (items : List (String × α)) (k v : String)
    (h : (assignKeyedIds pre setId items).2.1.lookup k = some v) :
    ((assignKeyedIds pre setId items).2.2.lookup v).isSome := by
  rw [assignKeyedIds_fwd_eq] at h
  rcases lookup_foldl_dset_mem _ _ _ _ h with h' | h'
  · simp [List.lookup] at h'
  · rw [assignKeyedIds_rev_eq]
    apply lookup_foldl_dset_isSome_of_mem
    left
    simp only [List.map_map] at h' ⊢
    convert h' using 2

theorem mapPersonOrganizations_sound (st : MapperState) (people : List Person) :
    ∀ p ∈ mapPersonOrganizations st people, ∀ oid, p.organization = some oid →
      ∃ k, st.organizationIds.lookup k = some oid := by
  intro p hp oid hoid
  obtain ⟨q, hq, rfl⟩ := List.mem_map.mp hp
  try dsimp only at hoid
  split at hoid
  · split at hoid
    · rename_i oid' hl
      simp only [Option.some_inj] at hoid
      exact ⟨_, by rw [hl, hoid]⟩
    · simp at hoid
  · simp at hoid

theorem mapPersonParties_shape (cfg : List Party) (st : MapperState)
    (people : List Person) :
    ∀ p ∈ mapPersonParties cfg st people, ∃ q ∈ people,
      p.organization = q.organization ∧
      ∀ pid, p.party = some pid → ∃ k, st.partyIds.lookup k = some pid := by
  intro p hp
  obtain ⟨q, hq, rfl⟩ := List.mem_map.mp hp
  refine ⟨q, hq, ?_, ?_⟩
  · try dsimp only
    split
    · split
      · split
        · rfl
        · rfl
      · rfl
    · rfl
  · intro pid hpid
    try dsimp only at hpid
    split at hpid
    · split at hpid
      · split at hpid
        · rename_i pa hpa pid' hl
          simp only [Option.some_inj] at hpid
          exact ⟨_, by rw [hl, hpid]⟩
        · simp at hpid
      · simp at hpid
    · simp at hpid

theorem mapOrganizationSectors_sound (st : MapperState) (orgs : List Org) :
    ∀ o ∈ mapOrganizationSectors st orgs, ∀ sid, o.sector = some sid →
      ∃ k, st.sectorIds.lookup k = some sid := by
  intro o ho sid hsid
  obtain ⟨q, hq, rfl⟩ := List.mem_map.mp ho
  try dsimp only at hsid
  split at hsid
  · split at hsid
    · split at hsid
      · rename_i sname hsn sid' hl
        simp only [Option.some_inj] at hsid
        exact ⟨_, by rw [hl, hsid]⟩
      · simp at hsid
    · simp at hsid
  · simp at hsid

theorem mapOrganizationHierarchies_shape (st : MapperState) (orgs : List Org) :
    ∀ o ∈ mapOrganizationHierarchies st orgs, ∃ q ∈ orgs,
      o.sector = q.sector ∧
      ∀ pid, o.parentOrganization = some pid →
        ∃ k, st.organizationIds.lookup k = some pid := by
  intro o ho
  obtain ⟨q, hq, rfl⟩ := List.mem_map.mp ho
  refine ⟨q, hq, ?_, ?_⟩
  · try dsimp only
    split
    · split
      · split
        · rfl
        · rfl
      · rfl
    · rfl
  · intro pid hpid
    try dsimp only at hpid
    split at hpid
    · split at hpid
      · split at hpid
        · rename_i pname hpn pid' hl
          simp only [Option.some_inj] at hpid
          exact ⟨_, by rw [hl, hpid]⟩
        · simp at hpid
      · simp at hpid
    · simp at hpid

/-- **C2.**  After `assign_all_ids` and `map_relationships` on the same
mapper instance, every non-null `Person.organization`, `Person.party`,
`Organization.sector` and `Organization.parentOrganization` is an ID present
in the corresponding assigned-ID table (the reverse id→name dict filled by
the same assignment loop), and consequently `validate_references` on the
mapped entities consists of circular-reference checks only — all four
dangling-reference scans produce no error. -/
theorem c2_mapped_references_resolve (cfg : List Party) (people : List Person)
    (organizations : List (String × Org)) (parties : List (String × Party))
    (sectors : List (String × Sector)) :
    (∀ p ∈ (mapRelationships cfg (assignAllIds people organizations parties sectors).1
        (assignAllIds people organizations parties sectors).2).people,
      (∀ oid, p.organization = some oid →
        (((assignAllIds people organizations parties sectors).1.idToOrganization).lookup
          oid).isSome = true) ∧
      (∀ pid, p.party = some pid →
        (((assignAllIds people organizations parties sectors).1.idToParty).lookup
          pid).isSome = true)) ∧
    (∀ o ∈ (mapRelationships cfg (assignAllIds people organizations parties sectors).1
        (assignAllIds people organizations parties sectors).2).organizations,
      (∀ sid, o.sector = some sid →
        (((assignAllIds people organizations parties sectors).1.idToSector).lookup
          sid).isSome = true) ∧
      (∀ pid, o.parentOrganization = some pid →
        (((assignAllIds people organizations parties sectors).1.idToOrganization).lookup
          pid).isSome = true)) ∧
    validateReferences (assignAllIds people organizations parties sectors).1
        (mapRelationships cfg (assignAllIds people organizations parties sectors).1
          (assignAllIds people organizations parties sectors).2) =
      detectCircularReferences
        (mapRelationships cfg (assignAllIds people organizations parties sectors).1
          (assignAllIds people organizations parties sectors).2).organizations := by
  have hlinkO : ∀ k v,
      (assignAllIds people organizations parties sectors).1.organizationIds.lookup k
        = some v →
      ((assignAllIds people organizations parties sectors).1.idToOrganization.lookup
        v).isSome = true :=
    fun k v h => assignKeyedIds_linked "O" (fun o i => { o with id := some i }) organizations k v h
  have hlinkPa : ∀ k v,
      (assignAllIds people organizations parties sectors).1.partyIds.lookup k = some v →
      ((assignAllIds people organizations parties sectors).1.idToParty.lookup
        v).isSome = true :=
    fun k v h => assignKeyedIds_linked "PTY" (fun p i => { p with id := some i }) parties k v h
  have hlinkSe : ∀ k v,
      (assignAllIds people organizations parties sectors).1.sectorIds.lookup k = some v →
      ((assignAllIds people organizations parties sectors).1.idToSector.lookup
        v).isSome = true :=
    fun k v h => assignKeyedIds_linked "SEC" (fun s i => { s with id := some i }) sectors k v h
  have hpart1 : ∀ p ∈ (mapRelationships cfg
        (assignAllIds people organizations parties sectors).1
        (assignAllIds people organizations parties sectors).2).people,
      (∀ oid, p.organization = some oid →
        (((assignAllIds people organizations parties sectors).1.idToOrganization).lookup
          oid).isSome = true) ∧
      (∀ pid, p.party = some pid →
        (((assignAllIds people organizations parties sectors).1.idToParty).lookup
          pid).isSome = true) := by
    intro p hp
    obtain ⟨q, hq, horg, hparty⟩ := mapPersonParties_shape cfg _ _ p hp
    constructor
    · intro oid hoid
      rw [horg] at hoid
      obtain ⟨k, hk⟩ := mapPersonOrganizations_sound _ _ q hq oid hoid
      exact hlinkO k oid hk
    · intro pid hpid
      obtain ⟨k, hk⟩ := hparty pid hpid
      exact hlinkPa k pid hk
  have hpart2 : ∀ o ∈ (mapRelationships cfg
        (assignAllIds people organizations parties sectors).1
        (assignAllIds people organizations parties sectors).2).organizations,
      (∀ sid, o.sector = some sid →
        (((assignAllIds people organizations parties sectors).1.idToSector).lookup
          sid).isSome = true) ∧
      (∀ pid, o.parentOrganization = some pid →
        (((assignAllIds people organizations parties sectors).1.idToOrganization).lookup
          pid).isSome = true) := by
    intro o ho
    obtain ⟨q, hq, hsec, hpar⟩ := mapOrganizationHierarchies_shape _ _ o ho
    constructor
    · intro sid hsid
      rw [hsec] at hsid
      obtain ⟨k, hk⟩ := mapOrganizationSectors_sound _ _ q hq sid hsid
      exact hlinkSe k sid hk
    · intro pid hpid
      obtain ⟨k, hk⟩ := hpar pid hpid
      exact hlinkO k pid hk
  refine ⟨hpart1, hpart2, ?_⟩
  have h1 : personOrgErrors (assignAllIds people organizations parties sectors).1
      (mapRelationships cfg (assignAllIds people organizations parties sectors).1
        (assignAllIds people organizations parties sectors).2).people = [] := by
    apply List.filterMap_eq_nil.mpr
    intro p hp
    dsimp only
    cases hpo : p.organization with
    | none => rfl
    | some oid =>
      try dsimp only
      rw [if_neg]
      intro hcond
      have := (hpart1 p hp).1 oid hpo
      rw [hcond.2] at this
      cases this
  have h2 : personPartyErrors (assignAllIds people organizations parties sectors).1
      (mapRelationships cfg (assignAllIds people organizations parties sectors).1
        (assignAllIds people organizations parties sectors).2).people = [] := by
    apply List.filterMap_eq_nil.mpr
    intro p hp
    dsimp only
    cases hpp : p.party with
    | none => rfl
    | some pid =>
      try dsimp only
      rw [if_neg]
      intro hcond
      have := (hpart1 p hp).2 pid hpp
      rw [hcond.2] at this
      cases this
  have h3 : orgSectorErrors (assignAllIds people organizations parties sectors).1
      (mapRelationships cfg (assignAllIds people organizations parties sectors).1
        (assignAllIds people organizations parties sectors).2).organizations = [] := by
    apply List.filterMap_eq_nil.mpr
    intro o ho
    dsimp only
    cases hos : o.sector with
    | none => rfl
    | some sid =>
      try dsimp only
      rw [if_neg]
      intro hcond
      have := (hpart2 o ho).1 sid hos
      rw [hcond.2] at this
      cases this
  have h4 : orgParentErrors (assignAllIds people organizations parties sectors).1
      (mapRelationships cfg (assignAllIds people organizations parties sectors).1
        (assignAllIds people organizations parties sectors).2).organizations = [] := by
    apply List.filterMap_eq_nil.mpr
    intro o ho
    dsimp only
    cases hop : o.parentOrganization with
    | none => rfl
    | some pid =>
      try dsimp only
      rw [if_neg]
      intro hcond
      have := (hpart2 o ho).2 pid hop
      rw [hcond.2] at this
      cases this
  unfold validateReferences
  rw [h1, h2, h3, h4]
  simp

/-- Concrete party config for the C2 witness. -/
def cfgW : List Party :=
  [{ name := "Democratic Party", abbreviation := "D", color := "#0015BC" }]

def peopleW : List Person :=
  [{ name := "N", currentRole := "Speaker (D-CA)", organization := some "House" }]

def orgsW : List (String × Org) :=
  [("House", { name := "House", sector := some "Gov" })]

def partiesW : List (String × Party) :=
  [("Democratic Party",
    { name := "Democratic Party", abbreviation := "D", color := "#0015BC" })]

def sectorsW : List (String × Sector) :=
  [("Gov", { name := "Gov", category := "gov" })]

/-- The mapped person produced by the C2 witness pipeline. -/
def pW : Person :=
  { name := "N", currentRole := "Speaker (D-CA)", organization := some "O001",
    party := some "PTY001", id := some "P001" }

/-- Evaluation of a keyed assignment on a one-entry dict (the sort is the
identity there). -/
theorem assignKeyedIds_singleton (pre : String) (setId : α → String → α)
    (k : String) (a : α) :
    assignKeyedIds pre setId [(k, a)] =
      ([setId a (pre ++ pad3 1)], [(k, pre ++ pad3 1)], [(pre ++ pad3 1, k)]) := by
  unfold assignKeyedIds
  rw [List.mergeSort_singleton]
  rfl

/-- The mapper state produced by the C2 witness pipeline. -/
def stW : MapperState :=
  { personIds := [("N", "P001")], organizationIds := [("House", "O001")],
    partyIds := [("Democratic Party", "PTY001")],
    sectorIds := [("Gov", "SEC001")],
    idToPerson := [("P001", "N")], idToOrganization := [("O001", "House")],
    idToParty := [("PTY001", "Democratic Party")],
    idToSector := [("SEC001", "Gov")] }

/-- The assigned person of the C2 witness pipeline. -/
def pWassigned : Person :=
  { name := "N", currentRole := "Speaker (D-CA)", organization := some "House", id := some "P001" }

/-- The assigned organization of the C2 witness pipeline. -/
def oWassigned : Org := { name := "House", sector := some "Gov", id := some "O001" }

/-- The assigned party of the C2 witness pipeline. -/
def paWassigned : Party :=
  { name := "Democratic Party", abbreviation := "D", color := "#0015BC", id := some "PTY001" }

/-- The assigned sector of the C2 witness pipeline. -/
def seWassigned : Sector := { name := "Gov", category := "gov", id := some "SEC001" }

/-- The entities produced by `assign_all_ids` in the C2 witness pipeline. -/
def entsW : Entities :=
  { people := [pWassigned], organizations := [oWassigned],
    parties := [paWassigned], sectors := [seWassigned] }

theorem assignAllIds_W : assignAllIds peopleW orgsW partiesW sectorsW
    = (stW, entsW) := by
  simp only [assignAllIds, peopleW, orgsW, partiesW, sectorsW,
    assignKeyedIds_singleton]
  decide

theorem c2_witness :
    (pW ∈ (mapRelationships cfgW (assignAllIds peopleW orgsW partiesW sectorsW).1
        (assignAllIds peopleW orgsW partiesW sectorsW).2).people ∧
      pW.organization = some "O001") ∧
    ((assignAllIds peopleW orgsW partiesW sectorsW).1.idToOrganization.lookup
      "O001").isSome = true := by
  have hmem0 : pW ∈ (mapRelationships cfgW stW entsW).people := by decide
  have hmem : pW ∈ (mapRelationships cfgW
      (assignAllIds peopleW orgsW partiesW sectorsW).1
      (assignAllIds peopleW orgsW partiesW sectorsW).2).people := by
    rw [assignAllIds_W]
    exact hmem0
  exact ⟨⟨hmem, rfl⟩,
    ((c2_mapped_references_resolve cfgW peopleW orgsW partiesW sectorsW).1 pW
      hmem).1 "O001" rfl⟩

/-! ### C3: `OrganizationDeduplicator.deduplicate_organizations`

The text-generation collaborator's grouping result (`_find_duplicate_groups`,
a dict canonical-name → variants, `{}` when the call fails) is an input
parameter of the embedding. -/

theorem dmem_iff_lookup_isSome (m : List (String × α)) (k : String) :
    dmem m k = true ↔ (m.lookup k).isSome = true := by
  induction m with
  | nil => simp [dmem, List.lookup]
  | cons p rest ih =>
    by_cases hk : k = p.1
    · simp [dmem, List.lookup, hk]
    · have hne : (k == p.1) = false := beq_eq_false_iff_ne.mpr hk
      have hd : (decide (p.1 = k) : Bool) = false :=
        decide_eq_false (fun h => hk h.symm)
      unfold dmem at ih ⊢
      simp only [List.any_cons, List.lookup, hne, hd, Bool.false_or]
      exact ih

theorem dmem_dset (m : List (String × α)) (k k' : String) (v : α) :
    dmem (dset m k v) k' = ((k' = k) || dmem m k') := by
  by_cases hk : k' = k
  · have h1 : dmem (dset m k v) k' = true := by
      rw [dmem_iff_lookup_isSome, lookup_dset, if_pos hk]
      rfl
    rw [h1, hk]
    simp
  · have h2 : dmem (dset m k v) k' = dmem m k' := by
      apply Bool.eq_iff_iff.mpr
      rw [dmem_iff_lookup_isSome, lookup_dset, if_neg hk, dmem_iff_lookup_isSome]
    rw [h2]
    simp [hk]

/-- One iteration of the `for canonical_name, variants in
duplicate_groups.items()` loop: pick the first variant present in the input
dict; when found, record it and map every variant to the canonical name. -/
def applyGroup (orgs : List (String × Org))
    (st : List (String × String) × List (String × String))
    (g : String × List String) :
    List (String × String) × List (String × String) :=
  match g.2.find? (fun v => dmem orgs v) with
  | some sv =>
    (g.2.foldl (fun m v => dset m v g.1) st.1, dset st.2 g.1 sv)
  | none => st

/-- The `for name in org_names` self-mapping pass. -/
def selfStep (st : List (String × String) × List (String × String))
    (p : String × Org) :
    List (String × String) × List (String × String) :=
  if dmem st.1 p.1 then st else (dset st.1 p.1 p.1, dset st.2 p.1 p.1)

/-- One iteration of the `for original_name, canonical_name in
canonical_mapping.items()` loop building the deduplicated dict. -/
def buildStep (orgs : List (String × Org)) (vts : List (String × String))
    (d : List (String × Org)) (pr : String × String) : List (String × Org) :=
  if dmem d pr.2 then d
  else
    match orgs.lookup ((vts.lookup pr.2).getD pr.1) with
    | some od => dset d pr.2 { od with name := pr.2 }
    | none => d

/-- `OrganizationDeduplicator.deduplicate_organizations`. -/
def deduplicateOrganizations (orgs : List (String × Org))
    (groups : List (String × List String)) :
    List (String × Org) × List (String × String) :=
  if orgs.length ≤ 1 then (orgs, orgs.map (fun p => (p.1, p.1)))
  else
    let st1 := groups.foldl (applyGroup orgs) ([], [])
    let st2 := orgs.foldl selfStep st1
    (st2.1.foldl (buildStep orgs st2.2) [], st2.1)

theorem lookup_self_pairs (l : List (String × Org)) (k : String)
    (h : k ∈ l.map Prod.fst) :
    (l.map (fun p => (p.1, p.1))).lookup k = some k := by
  induction l with
  | nil => simp at h
  | cons p rest ih =>
    by_cases hk : k = p.1
    · simp [List.lookup, hk]
    · have hne : (k == p.1) = false := beq_eq_false_iff_ne.mpr hk
      rw [List.map_cons] at h
      rcases List.mem_cons.mp h with h' | h'
      · exact absurd h' hk
      · simp only [List.map_cons, List.lookup, hne]
        exact ih h'

theorem dmem_selfFold (orgs : List (String × Org)) :
    ∀ (os : List (String × Org))
      (st : List (String × String) × List (String × String)) (name : String),
      (name ∈ os.map Prod.fst ∨ dmem st.1 name = true) →
      dmem (os.foldl selfStep st).1 name = true := by
  intro os
  induction os with
  | nil =>
    intro st name h
    simpa using h.resolve_left (by simp)
  | cons p rest ih =>
    intro st name h
    rw [List.foldl_cons]
    apply ih
    rcases h with h | h
    · rw [List.map_cons] at h
      rcases List.mem_cons.mp h with h' | h'
      · right
        unfold selfStep
        by_cases hmem : dmem st.1 p.1
        · rw [if_pos hmem, ← h'] at *
          exact h' ▸ hmem
        · rw [if_neg hmem]
          show dmem (dset st.1 p.1 p.1) name = true
          rw [dmem_dset, h']
          simp
      · exact Or.inl h'
    · right
      unfold selfStep
      by_cases hmem : dmem st.1 p.1
      · rw [if_pos hmem]; exact h
      · rw [if_neg hmem]
        show dmem (dset st.1 p.1 p.1) name = true
        rw [dmem_dset, h]
        simp

/-- **C3 totality.** -/
theorem dedup_total (orgs : List (String × Org))
    (groups : List (String × List String)) :
    ∀ name ∈ orgs.map Prod.fst,
      (((deduplicateOrganizations orgs groups).2.lookup name).isSome) = true := by
  intro name hname
  unfold deduplicateOrganizations
  by_cases hlen : orgs.length ≤ 1
  · rw [if_pos hlen]
    show ((orgs.map (fun p => (p.1, p.1))).lookup name).isSome = true
    rw [lookup_self_pairs orgs name hname]
    rfl
  · rw [if_neg hlen]
    show (((orgs.foldl selfStep (groups.foldl (applyGroup orgs)
      ([], []))).1.lookup name).isSome) = true
    rw [← dmem_iff_lookup_isSome]
    exact dmem_selfFold orgs orgs _ name (Or.inl hname)

theorem dmem_foldl_dset_keys (c : String) :
    ∀ (l : List String) (m : List (String × String)) (x : String),
      dmem (l.foldl (fun m v => dset m v c) m) x = true →
      dmem m x = true ∨ x ∈ l := by
  intro l
  induction l with
  | nil => intro m x h; exact Or.inl h
  | cons v rest ih =>
    intro m x h
    rw [List.foldl_cons] at h
    rcases ih (dset m v c) x h with h' | h'
    · rw [dmem_dset] at h'
      rcases Bool.or_eq_true_iff.mp h' with h'' | h''
      · exact Or.inr (by simp [of_decide_eq_true h''])
      · exact Or.inl h''
    · exact Or.inr (by simp [h'])

theorem dmem_groupFold (orgs : List (String × Org)) :
    ∀ (gs : List (String × List String))
      (st : List (String × String) × List (String × String)) (x : String),
      dmem (gs.foldl (applyGroup orgs) st).1 x = true →
      dmem st.1 x = true ∨ ∃ g ∈ gs, x ∈ g.2 := by
  intro gs
  induction gs with
  | nil => intro st x h; exact Or.inl h
  | cons g rest ih =>
    intro st x h
    rw [List.foldl_cons] at h
    rcases ih (applyGroup orgs st g) x h with h' | h'
    · unfold applyGroup at h'
      rcases hfind : g.2.find? (fun v => dmem orgs v) with _ | sv
      · rw [hfind] at h'
        exact Or.inl h'
      · rw [hfind] at h'
        dsimp only at h'
        rcases dmem_foldl_dset_keys g.1 g.2 st.1 x h' with h'' | h''
        · exact Or.inl h''
        · exact Or.inr ⟨g, by simp, h''⟩
    · obtain ⟨g', hg', hx⟩ := h'
      exact Or.inr ⟨g', by simp [hg'], hx⟩

theorem lookup_selfFold_self :
    ∀ (os : List (String × Org))
      (st : List (String × String) × List (String × String)) (name : String),
      (st.1.lookup name = some name ∨
        (dmem st.1 name = false ∧ name ∈ os.map Prod.fst)) →
      (os.foldl selfStep st).1.lookup name = some name := by
  intro os
  induction os with
  | nil =>
    intro st name h
    rcases h with h | ⟨-, h⟩
    · exact h
    · simp at h
  | cons p rest ih =>
    intro st name h
    rw [List.foldl_cons]
    apply ih
    rcases h with h | ⟨hdm, hmem⟩
    · left
      unfold selfStep
      by_cases hm : dmem st.1 p.1
      · rw [if_pos hm]; exact h
      · rw [if_neg hm]
        show (dset st.1 p.1 p.1).lookup name = some name
        rw [lookup_dset]
        by_cases hnp : name = p.1
        · rw [if_pos hnp, hnp]
        · rw [if_neg hnp]; exact h
    · rw [List.map_cons] at hmem
      by_cases hnp : name = p.1
      · left
        unfold selfStep
        have hm : dmem st.1 p.1 = false := by rw [← hnp]; exact hdm
        rw [if_neg (by rw [hm]; exact Bool.false_ne_true)]
        show (dset st.1 p.1 p.1).lookup name = some name
        rw [lookup_dset, if_pos hnp, hnp]
      · rcases List.mem_cons.mp hmem with h' | h'
        · exact absurd h' hnp
        · right
          constructor
          · unfold selfStep
            by_cases hm : dmem st.1 p.1
            · rw [if_pos hm]; exact hdm
            · rw [if_neg hm]
              show dmem (dset st.1 p.1 p.1) name = false
              rw [dmem_dset, hdm, decide_eq_false hnp]
              rfl
          · exact h'

/-- **C3.**  `deduplicate_organizations` returns a total name→canonical
mapping: every input organization name appears as a key; a name placed in no
group of the collaborator's result maps to itself; and on inputs with 0 or 1
names the identity mapping is returned immediately, independently of the
collaborator's grouping result (no external call influences the output). -/
theorem c3_dedup_mapping_total (orgs : List (String × Org))
    (groups : List (String × List String)) :
    (∀ name ∈ orgs.map Prod.fst,
      (((deduplicateOrganizations orgs groups).2.lookup name).isSome) = true) ∧
    (∀ name ∈ orgs.map Prod.fst, (∀ g ∈ groups, name ∉ g.2) →
      (deduplicateOrganizations orgs groups).2.lookup name = some name) ∧
    (orgs.length ≤ 1 →
      deduplicateOrganizations orgs groups = (orgs, orgs.map (fun p => (p.1, p.1))) ∧
      ∀ groups', deduplicateOrganizations orgs groups
        = deduplicateOrganizations orgs groups') := by
  refine ⟨dedup_total orgs groups, ?_, ?_⟩
  · intro name hname hno
    unfold deduplicateOrganizations
    by_cases hlen : orgs.length ≤ 1
    · rw [if_pos hlen]
      exact lookup_self_pairs orgs name hname
    · rw [if_neg hlen]
      show (orgs.foldl selfStep (groups.foldl (applyGroup orgs)
        ([], []))).1.lookup name = some name
      apply lookup_selfFold_self
      right
      constructor
      · rcases hb : dmem (groups.foldl (applyGroup orgs) ([], [])).1 name with _ | _
        · rfl
        · rcases dmem_groupFold orgs groups ([], []) name hb with h' | ⟨g, hg, hx⟩
          · simp [dmem] at h'
          · exact absurd hx (hno g hg)
      · exact hname
  · intro hlen
    constructor
    · unfold deduplicateOrganizations
      rw [if_pos hlen]
    · intro groups'
      unfold deduplicateOrganizations
      rw [if_pos hlen, if_pos hlen]

/-- Two-organization input and empty grouping used as the C3 witness. -/
def orgsC3w : List (String × Org) := [("A", { name := "A" }), ("B", { name := "B" })]

theorem c3_witness :
    ("A" ∈ orgsC3w.map Prod.fst ∧
      (∀ g ∈ ([] : List (String × List String)), "A" ∉ g.2)) ∧
    (deduplicateOrganizations orgsC3w []).2.lookup "A" = some "A" := by
  refine ⟨⟨by decide, by simp⟩, ?_⟩
  exact (c3_dedup_mapping_total orgsC3w []).2.1 "A" (by decide) (by simp)

/-! ### `text_chunker.py`: `TextChunker`

Regex character classes (`\s`, `\w`, `\d`, `.lower()`) are modelled on
ASCII; Python string slicing and lengths count code points, matching
`List Char`. -/

/-- Constructor arguments of `TextChunker`. -/
structure ChunkerConfig where
  max_chunk_size : Nat := 2000
  min_chunk_size : Nat := 500
  overlap : Nat := 100
  deriving Repr, DecidableEq

/-- A chunk dict as produced by `chunk_text`. -/
structure Chunk where
  text : String := ""
  sectionName : String := ""
  chunk_index : Nat := 0
  is_intro : Bool := false
  person_name : String := ""
  deriving Repr, DecidableEq

/-- A section dict as produced by `_parse_sections`. -/
structure SectionPart where
  name : String := ""
  text : String := ""
  is_intro : Bool := false
  deriving Repr, DecidableEq

/-- A chunk dict as produced by `_chunk_by_paragraphs` (no index yet). -/
structure PChunk where
  text : String := ""
  sectionName : String := ""
  is_intro : Bool := false
  deriving Repr, DecidableEq

/-- Try the section-header pattern (newline, `==`, at least one non-`=`
character, `==`, newline) at the current position.  Returns the match length
and the raw capture (`strip` is applied by the caller, absorbing the `\s*`
parts of the pattern). -/
def sectionMatchAt : List Char → Option (Nat × List Char)
  | '\n' :: '=' :: '=' :: rest =>
    let run := rest.takeWhile (fun c => c ≠ '=')
    if run.length = 0 then none
    else
      match rest.drop run.length with
      | '=' :: '=' :: '\n' :: _ => some (run.length + 6, run)
      | _ => none
  | _ => none

theorem sectionMatchAt_pos (cs : List Char) (len : Nat) (run : List Char)
    (h : sectionMatchAt cs = some (len, run)) : 0 < len := by
  unfold sectionMatchAt at h
  split at h
  · dsimp only at h
    split at h
    · cases h
    · split at h
      · injection h with h'
        injection h' with h1 h2
        omega
      · cases h
  · cases h

/-- `re.finditer` of the section-header pattern: leftmost non-overlapping
matches, as (start, end, raw capture) triples. -/
def findSectionMatches : List Char → Nat → List (Nat × Nat × List Char)
  | [], _ => []
  | c :: rest, pos =>
    match hm : sectionMatchAt (c :: rest) with
    | some (len, run) =>
      (pos, pos + len, run) :: findSectionMatches ((c :: rest).drop len) (pos + len)
    | none => findSectionMatches rest (pos + 1)
termination_by cs _ => cs.length
decreasing_by
  · have hpos := sectionMatchAt_pos _ _ _ hm
    rw [List.length_drop]
    simp only [List.length_cons]
    omega
  · simp

/-- `TextChunker._parse_sections` for the matched sections (text of match
`i` runs from its end to the next match's start, last one to the end). -/
def sectionsFromMatches (cs : List Char) : List (Nat × Nat × List Char) → List SectionPart
  | [] => []
  | m :: ms =>
    let endPos := match ms with | [] => cs.length | m' :: _ => m'.1
    let sText := pyStrip ⟨(cs.take endPos).drop m.2.1⟩
    let rest := sectionsFromMatches cs ms
    if sText.length > 50 then
      { name := pyStrip ⟨m.2.2⟩, text := sText, is_intro := false } :: rest
    else rest

/-- `TextChunker._parse_sections`. -/
def parseSections (text : String) : List SectionPart :=
  match findSectionMatches text.data 0 with
  | [] => [{ name := "Introduction", text := pyStrip text, is_intro := true }]
  | m0 :: ms =>
    let intro := pyStrip ⟨text.data.take m0.1⟩
    (if intro ≠ "" then
      [{ name := "Introduction", text := intro, is_intro := true }]
    else []) ++ sectionsFromMatches text.data (m0 :: ms)

/-- `re.split` on runs of two or more newlines. -/
def splitParasGo : List Char → List Char → List String
  | '\n' :: '\n' :: rest, acc =>
    (⟨acc.reverse⟩ : String) ::
      splitParasGo (rest.dropWhile (fun c => c = '\n')) []
  | c :: rest, acc => splitParasGo rest (c :: acc)
  | [], acc => [⟨acc.reverse⟩]
termination_by cs _ => cs.length
decreasing_by
  · have : (rest.dropWhile (fun c => c = '\n')).length ≤ rest.length :=
      (List.dropWhile_sublist _).length_le
    simp only [List.length_cons]
    omega
  · simp

def splitParagraphs (s : String) : List String := splitParasGo s.data []

/-- Python `str.rfind`: start index of the last occurrence of `pat`. -/
def lastIndexOfFrom : List Char → List Char → Nat → Option Nat → Option Nat
  | [], _, _, best => best
  | c :: rest, pat, i, best =>
    if pat.isPrefixOf (c :: rest) then lastIndexOfFrom rest pat (i + 1) (some i)
    else lastIndexOfFrom rest pat (i + 1) best

/-- `TextChunker._get_overlap`. -/
def getOverlap (cfg : ChunkerConfig) (text : String) : String :=
  if text.length ≤ cfg.overlap then text
  else
    let ot := text.data.drop (text.length - cfg.overlap)
    match lastIndexOfFrom ot ['.', ' '] 0 none with
    | some idx => if idx > 0 then ⟨ot.drop (idx + 2)⟩ else ⟨ot⟩
    | none => ⟨ot⟩

/-- The paragraph-accumulation loop of `TextChunker._chunk_by_paragraphs`. -/
def chunkParasGo (cfg : ChunkerConfig) (sname : String) (intro : Bool) :
    List String → String → List PChunk
  | [], current =>
    if pyStrip current ≠ "" then
      [{ text := pyStrip current, sectionName := sname, is_intro := intro }]
    else []
  | para :: rest, current =>
    let p := pyStrip para
    if p = "" then chunkParasGo cfg sname intro rest current
    else if current.length + p.length + 2 > cfg.max_chunk_size then
      if current.length > cfg.min_chunk_size then
        { text := pyStrip current, sectionName := sname, is_intro := intro } ::
          chunkParasGo cfg sname intro rest
            (getOverlap cfg current ++ "\n\n" ++ p)
      else
        chunkParasGo cfg sname intro rest
          (if current ≠ "" then current ++ "\n\n" ++ p else p)
    else
      chunkParasGo cfg sname intro rest
        (if current ≠ "" then current ++ "\n\n" ++ p else p)

/-- `TextChunker._chunk_by_paragraphs`. -/
def chunkByParagraphs (cfg : ChunkerConfig) (text sname : String)
    (intro : Bool) : List PChunk :=
  chunkParasGo cfg sname intro (splitParagraphs text) ""

/-- `TextChunker.chunk_text`. -/
def chunkText (cfg : ChunkerConfig) (text : String) (person_name : String) :
    List Chunk :=
  if text = "" ∨ text.length < cfg.max_chunk_size then
    [{ text := text, sectionName := "Full Article", chunk_index := 0,
       is_intro := true, person_name := person_name }]
  else
    let sections := parseSections text
    let pchunks := (sections.map (fun s =>
      if s.text.length ≤ cfg.max_chunk_size then
        [{ text := s.text, sectionName := s.name, is_intro := s.is_intro }]
      else chunkByParagraphs cfg s.text s.name s.is_intro)).join
    (List.enumFrom 0 pchunks).map (fun q =>
      { text := q.2.text, sectionName := q.2.sectionName, chunk_index := q.1,
        is_intro := q.2.is_intro, person_name := person_name })

/-- Python substring containment (`pat in text`) on character lists. -/
def infixOfCh : List Char → List Char → Bool
  | pat, [] => pat.isEmpty
  | pat, c :: rest => pat.isPrefixOf (c :: rest) || infixOfCh pat rest

/-- ASCII model of the `\w` character class. -/
def isWordChar (c : Char) : Bool :=
  c.isDigit || ('a' ≤ c && c ≤ 'z') || ('A' ≤ c && c ≤ 'Z') || c = '_'

/-- Count of `\b\d{4}\b` matches (`re.findall`), scanning left to right;
the flag records whether the previous character is a word character. -/
def countDatesGo : Bool → List Char → Nat
  | prevWord, d1 :: d2 :: d3 :: d4 :: rest =>
    if !prevWord && d1.isDigit && d2.isDigit && d3.isDigit && d4.isDigit
        && (match rest with | [] => true | c :: _ => !isWordChar c) then
      1 + countDatesGo true rest
    else countDatesGo (isWordChar d1) (d2 :: d3 :: d4 :: rest)
  | prevWord, c :: rest => countDatesGo (isWordChar c) rest
  | _, [] => 0

/-- The biographical section names of `_score_chunk`. -/
def bioSections : List String :=
  ["early life", "education", "career", "personal life", "biography",
   "background", "youth"]

/-- The biographical keywords of `_score_chunk`. -/
def bioKeywords : List String :=
  ["born", "graduated", "attended", "studied", "degree", "university",
   "college", "school", "family", "married", "raised", "childhood", "parents"]

/-- `TextChunker._score_chunk` (all increments are integral, so the Python
float score is modelled by `Nat`). -/
def scoreChunk (c : Chunk) : Nat :=
  let textLower := c.text.data.map Char.toLower
  let sectionLower := c.sectionName.data.map Char.toLower
  (if c.is_intro then 100 else 0)
  + (if bioSections.any (fun bs => infixOfCh bs.data sectionLower) then 50 else 0)
  + 5 * (bioKeywords.countP (fun kw => infixOfCh kw.data textLower))
  + 2 * countDatesGo false textLower
  + (if 500 < textLower.length then 10 else 0)

/-- The `result.insert(0, chunk)` / `result.append(chunk)` pass of
`prioritize_chunks`. -/
def introFrontPass (l : List Chunk) : List Chunk :=
  l.foldl (fun res c => if c.is_intro then c :: res else res ++ [c]) []

/-- `TextChunker.prioritize_chunks` (`list.sort(reverse=True, key=score)` is
a stable descending sort, i.e. a stable sort by `score b ≤ score a`). -/
def prioritizeChunks (chunks : List Chunk) (maxChunks : Nat) : List Chunk :=
  if chunks.length ≤ maxChunks then chunks
  else
    let scored := chunks.mergeSort (fun a b => scoreChunk b ≤ scoreChunk a)
    (introFrontPass scored).take maxChunks

/-- **C10.**  For every input shorter than the configured maximum chunk
size (the empty string is also caught by Python's `if not text` guard),
`chunk_text` returns exactly one chunk: the input text unchanged, section
`"Full Article"`, index 0, and the introduction flag set. -/
theorem c10_short_text_single_chunk (cfg : ChunkerConfig)
    (text person_name : String) (h : text.length < cfg.max_chunk_size) :
    chunkText cfg text person_name =
      [{ text := text, sectionName := "Full Article", chunk_index := 0,
         is_intro := true, person_name := person_name }] := by
  unfold chunkText
  rw [if_pos (Or.inr h)]

theorem c10_witness :
    (("hi" : String).length <
      ({ max_chunk_size := 2000, min_chunk_size := 500, overlap := 100 }
        : ChunkerConfig).max_chunk_size) ∧
    chunkText { max_chunk_size := 2000, min_chunk_size := 500, overlap := 100 }
        "hi" "p" =
      [{ text := "hi", sectionName := "Full Article", chunk_index := 0,
         is_intro := true, person_name := "p" }] :=
  ⟨by decide, c10_short_text_single_chunk _ "hi" "p" (by decide)⟩

theorem introFrontPass_go : ∀ (l : List Chunk) (acc : List Chunk),
    l.foldl (fun res c => if c.is_intro then c :: res else res ++ [c]) acc
      = (l.filter (fun c => c.is_intro)).reverse ++ acc
        ++ l.filter (fun c => ! c.is_intro) := by
  intro l
  induction l with
  | nil => intro acc; simp
  | cons c rest ih =>
    intro acc
    rw [List.foldl_cons]
    by_cases hc : c.is_intro
    · rw [if_pos hc, ih, List.filter_cons_of_pos (by simpa using hc),
        List.filter_cons_of_neg (by simp [hc])]
      simp
    · rw [if_neg hc, ih, List.filter_cons_of_neg (by simpa using hc),
        List.filter_cons_of_pos (by simp [Bool.not_eq_true] at hc ⊢; exact hc)]
      simp

theorem introFrontPass_eq (l : List Chunk) :
    introFrontPass l = (l.filter (fun c => c.is_intro)).reverse
      ++ l.filter (fun c => ! c.is_intro) := by
  have := introFrontPass_go l []
  simpa [introFrontPass] using this

theorem filter_partition_length (p : α → Bool) (l : List α) :
    (l.filter p).length + (l.filter (fun a => ! p a)).length = l.length := by
  induction l with
  | nil => simp
  | cons a rest ih =>
    by_cases ha : p a
    · rw [List.filter_cons_of_pos ha, List.filter_cons_of_neg (by simp [ha])]
      simp only [List.length_cons]
      omega
    · rw [List.filter_cons_of_neg (by simpa using ha),
        List.filter_cons_of_pos (by simp [Bool.not_eq_true] at ha ⊢; exact ha)]
      simp only [List.length_cons]
      omega

theorem length_introFrontPass (l : List Chunk) :
    (introFrontPass l).length = l.length := by
  rw [introFrontPass_eq, List.length_append, List.length_reverse]
  exact filter_partition_length _ l

/-- **C9.**  Whenever there are more chunks than the selection limit `k ≥ 1`
and at least one introduction chunk, `prioritize_chunks` returns exactly `k`
chunks and its first element is an introduction chunk, regardless of the
chunks' computed relevance scores. -/
theorem c9_prioritize_includes_intro (chunks : List Chunk) (k : Nat)
    (hlen : k < chunks.length) (hk : 0 < k)
    (hintro : ∃ c ∈ chunks, c.is_intro = true) :
    (prioritizeChunks chunks k).length = k ∧
    ∃ c, (prioritizeChunks chunks k).head? = some c ∧ c.is_intro = true := by
  unfold prioritizeChunks
  rw [if_neg (by omega)]
  dsimp only
  have hslen : (chunks.mergeSort (fun a b => scoreChunk b ≤ scoreChunk a)).length
      = chunks.length := List.length_mergeSort chunks
  obtain ⟨c0, hc0, hc0i⟩ := hintro
  have hc0s : c0 ∈ chunks.mergeSort (fun a b => scoreChunk b ≤ scoreChunk a) :=
    List.mem_mergeSort.mpr hc0
  have hfmem : c0 ∈ (chunks.mergeSort
      (fun a b => scoreChunk b ≤ scoreChunk a)).filter (fun c => c.is_intro) :=
    List.mem_filter.mpr ⟨hc0s, by simpa using hc0i⟩
  rcases hrev : ((chunks.mergeSort
      (fun a b => scoreChunk b ≤ scoreChunk a)).filter
        (fun c => c.is_intro)).reverse with _ | ⟨y, ys⟩
  · exfalso
    have : (chunks.mergeSort (fun a b => scoreChunk b ≤ scoreChunk a)).filter
        (fun c => c.is_intro) = [] := by
      have := congrArg List.reverse hrev
      simpa using this
    rw [this] at hfmem
    cases hfmem
  · have hy : y ∈ (chunks.mergeSort
        (fun a b => scoreChunk b ≤ scoreChunk a)).filter (fun c => c.is_intro) := by
      rw [← List.mem_reverse, hrev]
      simp
    have hyi : y.is_intro = true := by simpa using (List.mem_filter.mp hy).2
    have hpass : introFrontPass (chunks.mergeSort
        (fun a b => scoreChunk b ≤ scoreChunk a))
        = y :: (ys ++ (chunks.mergeSort
            (fun a b => scoreChunk b ≤ scoreChunk a)).filter
              (fun c => ! c.is_intro)) := by
      rw [introFrontPass_eq, hrev]
      simp
    constructor
    · rw [List.length_take, length_introFrontPass, hslen]
      omega
    · rw [hpass]
      obtain ⟨m, rfl⟩ : ∃ m, k = m + 1 := ⟨k - 1, by omega⟩
      rw [List.take_succ_cons]
      exact ⟨y, rfl, hyi⟩

/-- Non-introduction chunk of the C9 witness. -/
def chA : Chunk := { text := "x", sectionName := "s" }

/-- Introduction chunk of the C9 witness. -/
def chB : Chunk := { text := "y", sectionName := "Introduction", is_intro := true }

theorem c9_witness :
    ((1 < ([chA, chB] : List Chunk).length ∧ 0 < 1 ∧
      ∃ c ∈ [chA, chB], c.is_intro = true) ∧
    ((prioritizeChunks [chA, chB] 1).length = 1 ∧
      ∃ c, (prioritizeChunks [chA, chB] 1).head? = some c ∧
        c.is_intro = true)) := by
  refine ⟨⟨by decide, by decide, ⟨chB, by decide, rfl⟩⟩, ?_⟩
  exact c9_prioritize_includes_intro [chA, chB] 1 (by decide) (by decide)
    ⟨chB, by decide, rfl⟩

/-! ### C6: correctness of `extract_party` -/

/-- The title contains, at some position, the parenthesised party pattern
with captured letter `c`: `(c)` or `(c-XY)` with `X`, `Y` letters, and `c`
one of `R`, `D`, `I` up to case. -/
def HasPartyPatternC (cs : List Char) (c : Char) : Prop :=
  isRDI c = true ∧ ∃ pre post,
    cs = pre ++ '(' :: c :: ')' :: post ∨
    ∃ a b, isAsciiAlpha a = true ∧ isAsciiAlpha b = true ∧
      cs = pre ++ '(' :: c :: '-' :: a :: b :: ')' :: post

/-- The title contains the parenthesised party pattern somewhere. -/
def HasPartyPattern (cs : List Char) : Prop := ∃ c, HasPartyPatternC cs c

theorem partyMatchAt_short (c : Char) (post : List Char) :
    partyMatchAt ('(' :: c :: ')' :: post)
      = if isRDI c then some c else none := rfl

theorem partyMatchAt_long (c a b : Char) (post : List Char) :
    partyMatchAt ('(' :: c :: '-' :: a :: b :: ')' :: post)
      = if isRDI c && isAsciiAlpha a && isAsciiAlpha b then some c else none := rfl

theorem partyMatchAt_sound (cs : List Char) (y : Char)
    (h : partyMatchAt cs = some y) :
    isRDI y = true ∧ (∃ post, cs = '(' :: y :: ')' :: post) ∨
    isRDI y = true ∧ ∃ a b post, isAsciiAlpha a = true ∧ isAsciiAlpha b = true ∧
      cs = '(' :: y :: '-' :: a :: b :: ')' :: post := by
  unfold partyMatchAt at h
  split at h
  · rename_i c rest
    split at h
    · rename_i hrdi
      injection h with h'
      subst h'
      exact Or.inl ⟨hrdi, rest, rfl⟩
    · cases h
  · rename_i c a b rest
    split at h
    · rename_i hcond
      injection h with h'
      subst h'
      simp only [Bool.and_eq_true] at hcond
      exact Or.inr ⟨hcond.1.1, a, b, rest, hcond.1.2, hcond.2, rfl⟩
    · cases h
  · cases h

theorem scanParty_sound : ∀ (cs : List Char) (x : Char),
    scanParty cs = some x → HasPartyPatternC cs x := by
  intro cs
  induction cs with
  | nil => intro x h; cases h
  | cons hd rest ih =>
    intro x h
    unfold scanParty at h
    rcases hm : partyMatchAt (hd :: rest) with _ | y
    · rw [hm] at h
      obtain ⟨hrdi, pre, post, hshape⟩ := ih x h
      exact ⟨hrdi, hd :: pre, post, by
        rcases hshape with h' | ⟨a, b, ha, hb, h'⟩
        · exact Or.inl (by rw [List.cons_append, h'])
        · exact Or.inr ⟨a, b, ha, hb, by rw [List.cons_append, h']⟩⟩
    · rw [hm] at h
      injection h with h'
      subst h'
      rcases partyMatchAt_sound _ _ hm with ⟨hrdi, post, hshape⟩ |
        ⟨hrdi, a, b, post, ha, hb, hshape⟩
      · exact ⟨hrdi, [], post, Or.inl hshape⟩
      · exact ⟨hrdi, [], post, Or.inr ⟨a, b, ha, hb, hshape⟩⟩

theorem scanParty_complete : ∀ (cs : List Char),
    scanParty cs = none → ¬ HasPartyPattern cs := by
  intro cs
  induction cs with
  | nil =>
    intro _ hpat
    obtain ⟨c, -, pre, post, hshape⟩ := hpat
    rcases hshape with h' | ⟨a, b, -, -, h'⟩ <;>
      exact absurd h'.symm (List.append_ne_nil_of_right_ne_nil pre (by simp))
  | cons hd rest ih =>
    intro h hpat
    unfold scanParty at h
    rcases hm : partyMatchAt (hd :: rest) with _ | y
    · rw [hm] at h
      obtain ⟨c, hrdi, pre, post, hshape⟩ := hpat
      rcases pre with _ | ⟨p0, pre'⟩
      · rcases hshape with h' | ⟨a, b, ha, hb, h'⟩
        · rw [List.nil_append] at h'
          rw [h', partyMatchAt_short, if_pos hrdi] at hm
          cases hm
        · rw [List.nil_append] at h'
          rw [h', partyMatchAt_long,
            if_pos (by rw [hrdi, ha, hb]; rfl)] at hm
          cases hm
      · apply ih h
        rcases hshape with h' | ⟨a, b, ha, hb, h'⟩
        · rw [List.cons_append] at h'
          injection h' with h1 h2
          exact ⟨c, hrdi, pre', post, Or.inl h2⟩
        · rw [List.cons_append] at h'
          injection h' with h1 h2
          exact ⟨c, hrdi, pre', post, Or.inr ⟨a, b, ha, hb, h2⟩⟩
    · rw [hm] at h
      cases h

/-- **C6 (amended).**  `extract_party` scans the title for the leftmost
occurrence of the parenthesised single-letter code restricted to the letters
`R`, `D`, `I` (case-insensitive), optionally followed by a dash and two
letters.  When the title contains no such pattern the result is null; any
non-null result is the configured party (name, abbreviation, color) whose
abbreviation equals the uppercased captured letter of such a pattern; and
conversely, whenever the title does contain such a pattern, the result is
exactly the configured-table lookup of a captured pattern letter — the
matching party when one is configured, null when none is.  (The claim's
"any configured abbreviation" fails: the compiled character class is fixed
to `[RDI]`, see the counterexample.) -/
theorem c6_extractParty_rdi_pattern (cfg : List Party) (title : String) :
    (¬ HasPartyPattern title.data → extractParty cfg title = none) ∧
    (∀ p, extractParty cfg title = some p →
      ∃ c, HasPartyPatternC title.data c ∧
        ∃ q, cfg.find? (fun q => q.abbreviation == String.singleton c.toUpper)
            = some q ∧
          p = { name := q.name, abbreviation := q.abbreviation,
                color := q.color }) ∧
    (HasPartyPattern title.data →
      ∃ c, HasPartyPatternC title.data c ∧
        extractParty cfg title
          = (cfg.find?
              (fun q => q.abbreviation == String.singleton c.toUpper)).map
              (fun q => { name := q.name, abbreviation := q.abbreviation,
                          color := q.color })) := by
  refine ⟨?_, ?_, ?_⟩
  · intro hno
    unfold extractParty
    by_cases ht : title = ""
    · rw [if_pos ht]
    · rw [if_neg ht]
      rcases hs : scanParty title.data with _ | c
      · rfl
      · exact absurd ⟨c, scanParty_sound _ _ hs⟩ hno
  · intro p hp
    unfold extractParty at hp
    by_cases ht : title = ""
    · rw [if_pos ht] at hp
      cases hp
    · rw [if_neg ht] at hp
      rcases hs : scanParty title.data with _ | c
      · rw [hs] at hp
        cases hp
      · rw [hs] at hp
        dsimp only at hp
        rcases hf : cfg.find?
            (fun q => q.abbreviation == String.singleton c.toUpper) with _ | q
        · rw [hf] at hp
          cases hp
        · rw [hf] at hp
          dsimp only at hp
          injection hp with h'
          exact ⟨c, scanParty_sound _ _ hs, q, hf, h'.symm⟩
  · intro hpat
    by_cases ht : title = ""
    · exfalso
      obtain ⟨c, -, pre, post, hshape⟩ := hpat
      subst ht
      rw [show ("" : String).data = [] from rfl] at hshape
      rcases hshape with h' | ⟨a, b, -, -, h'⟩ <;>
        exact absurd h'.symm (List.append_ne_nil_of_right_ne_nil pre (by simp))
    · rcases hs : scanParty title.data with _ | c
      · exact absurd hpat (scanParty_complete _ hs)
      · refine ⟨c, scanParty_sound _ _ hs, ?_⟩
        unfold extractParty
        rw [if_neg ht, hs]
        dsimp only
        rcases hf : cfg.find?
            (fun q => q.abbreviation == String.singleton c.toUpper) with _ | q <;>
          rw [hf] <;> rfl

/-- A configured party whose abbreviation is outside `[RDI]`. -/
def greenParty : Party := { name := "Green", abbreviation := "G", color := "#00FF00" }

/-- **C6 counterexample.**  The title `"(G)"` contains the configured
abbreviation `G` as a single letter enclosed in parentheses, yet
`extract_party` returns null, because the compiled pattern only accepts the
letters `R`, `D`, `I`. -/
theorem c6_counterexample :
    extractParty [greenParty] "(G)" = none ∧
    greenParty.abbreviation = "G" ∧ ("(G)" : String).data
      = ['('] ++ ['G'] ++ [')'] := by
  refine ⟨by decide, rfl, by decide⟩

/-- The configured Democratic party of the C6 witness. -/
def demParty : Party :=
  { name := "Democratic Party", abbreviation := "D", color := "#0015BC" }

theorem c6_witness :
    extractParty [demParty] "Sen. (D-CA)" = some demParty ∧
    (∃ c, HasPartyPatternC ("Sen. (D-CA)" : String).data c ∧
      ∃ q, ([demParty].find?
          (fun q => q.abbreviation == String.singleton c.toUpper)) = some q ∧
        demParty = { name := q.name, abbreviation := q.abbreviation,
                     color := q.color }) ∧
    (HasPartyPattern ("Sen. (D-CA)" : String).data ∧
      ∃ c, HasPartyPatternC ("Sen. (D-CA)" : String).data c ∧
        extractParty [demParty] "Sen. (D-CA)"
          = ([demParty].find?
              (fun q => q.abbreviation == String.singleton c.toUpper)).map
              (fun q => { name := q.name, abbreviation := q.abbreviation,
                          color := q.color })) := by
  have hpat : HasPartyPattern ("Sen. (D-CA)" : String).data :=
    ⟨'D', by decide, ['S', 'e', 'n', '.', ' '], [],
      Or.inr ⟨'C', 'A', by decide, by decide, by decide⟩⟩
  refine ⟨by decide, ?_, hpat, ?_⟩
  · exact (c6_extractParty_rdi_pattern [demParty] "Sen. (D-CA)").2.1 demParty
      (by decide)
  · exact (c6_extractParty_rdi_pattern [demParty] "Sen. (D-CA)").2.2 hpat

/-! ### `ai_enhancer.py`: `ClaudeAIEnhancer.enhance_batch`

The text-generation collaborator's parsed responses are oracle inputs
(`none` models a transport/parse failure caught by the per-stage handler,
including the undefined-prompt `NameError` when the excerpt is empty);
caches are empty (a fresh run).  Each stage's citation is
`{"Wikipedia", wiki.get('url',''), "high"}`. -/

/-- A source citation dict. -/
structure Citation where
  sourceName : String := ""
  sourceUrl : String := ""
  reliability : String := ""
  deriving Repr, DecidableEq

/-- The Wikipedia data dict for one person (`{}` is modelled by `none` at
the use sites; `url` defaults to `""` as in `wiki.get('url', '')`). -/
structure WikiData where
  url : String := ""
  birth_date : Option String := none
  extract : String := ""
  chunks : List Chunk := []
  deriving Repr, DecidableEq

/-- The chunk scoring of `_get_relevant_text`. -/
def relevantScore (keywords : List String) (c : Chunk) : Nat :=
  (if c.is_intro then 100 else 0)
  + 10 * keywords.countP (fun kw =>
      infixOfCh (kw.data.map Char.toLower) (c.text.data.map Char.toLower))

/-- The chunk-combining loop of `_get_relevant_text` (breaks at the first
chunk that would exceed `max_chars`). -/
def combineChunks (maxChars : Nat) : List Chunk → String → String
  | [], acc => acc
  | c :: rest, acc =>
    if acc.length + c.text.length + 10 ≤ maxChars then
      combineChunks maxChars rest (acc ++
        (if c.sectionName ≠ "Introduction" then
          "\n\n=== " ++ c.sectionName ++ " ===\n"
        else "") ++ c.text)
    else acc

/-- `ClaudeAIEnhancer._get_relevant_text` (keywords `[]` models the `None`
default; `list.sort(reverse=True, key=score)` is a stable descending sort). -/
def getRelevantText (wiki : WikiData) (keywords : List String)
    (maxChars : Nat) : String :=
  if wiki.chunks ≠ [] then
    pyStrip (combineChunks maxChars
      (if keywords ≠ [] then
        wiki.chunks.mergeSort
          (fun a b => relevantScore keywords b ≤ relevantScore keywords a)
      else wiki.chunks) "")
  else
    if wiki.extract.length > maxChars then ⟨wiki.extract.data.take maxChars⟩ ++ "..."
    else wiki.extract

/-- The citation appended by every successful sub-operation. -/
def wikiCitation (w : WikiData) : Citation :=
  { sourceName := "Wikipedia", sourceUrl := w.url, reliability := "high" }

/-- Result shape of `_enhance_basic_info`. -/
structure BasicInfoResult where
  dateOfBirth : Option String := none
  gender : String := ""
  sources : List Citation := []
  deriving Repr, DecidableEq

/-- `ClaudeAIEnhancer._enhance_basic_info` (fresh cache): the birth date is
copied from the Wikipedia record (with a citation); the gender request runs
only for a non-empty wiki dict, and an empty excerpt leaves the prompt
undefined, so the call raises and gender stays empty. -/
def enhanceBasicInfo (wiki : Option WikiData) (genderResp : Option String) :
    BasicInfoResult :=
  match wiki with
  | none => {}
  | some w =>
    let res0 : BasicInfoResult :=
      if truthy w.birth_date then
        { dateOfBirth := w.birth_date, sources := [wikiCitation w] }
      else {}
    if getRelevantText w [] 800 ≠ "" then
      match genderResp with
      | some g => if g ≠ "" then { res0 with gender := g } else res0
      | none => res0
    else res0

/-- Result shape of the four field-extraction stages. -/
structure StageResult where
  value : String := ""
  sources : List Citation := []
  deriving Repr, DecidableEq

/-- Common body of `_enhance_education` / `_enhance_career_history` /
`_enhance_biography` / `_extract_organization` (fresh cache): empty wiki or
empty excerpt yields the empty result; a successful call with a truthy
parsed value sets the field and appends one citation. -/
def enhanceFieldStage (wiki : Option WikiData) (keywords : List String)
    (maxChars : Nat) (resp : Option String) : StageResult :=
  match wiki with
  | none => {}
  | some w =>
    if getRelevantText w keywords maxChars = "" then {}
    else
      match resp with
      | some v => if v ≠ "" then { value := v, sources := [wikiCitation w] } else {}
      | none => {}

def eduKeywords : List String :=
  ["education", "university", "college", "graduated", "degree", "studied"]

def careerKeywords : List String :=
  ["career", "elected", "appointed", "served", "position", "founded", "work"]

def bioStageKeywords : List String :=
  ["born", "early life", "career", "education", "political"]

def orgStageKeywords (p : Person) : List String :=
  ["current", "serves", "member", "senator", "representative",
   ⟨p.currentRole.data.map Char.toLower⟩]

/-- The per-person enhanced record of `enhance_batch`. -/
structure Enhanced where
  name : String := ""
  dateOfBirth : Option String := none
  gender : String := ""
  education : String := ""
  careerHistory : String := ""
  bio : String := ""
  organization : String := ""
  sources : List Citation := []
  deriving Repr, DecidableEq

/-- The collaborator's parsed responses for one person's five stages. -/
structure EnhanceOracle where
  gender : Option String := none
  education : Option String := none
  career : Option String := none
  bio : Option String := none
  organization : Option String := none
  deriving Repr, DecidableEq

/-- The `all_sources` accumulator of `enhance_batch`. -/
def rawSources (p : Person) (wiki : Option WikiData) (o : EnhanceOracle) :
    List Citation :=
  (enhanceBasicInfo wiki o.gender).sources
    ++ (enhanceFieldStage wiki eduKeywords 3000 o.education).sources
    ++ (enhanceFieldStage wiki careerKeywords 3500 o.career).sources
    ++ (enhanceFieldStage wiki bioStageKeywords 4000 o.bio).sources
    ++ (enhanceFieldStage wiki (orgStageKeywords p) 2000 o.organization).sources

/-- The source-deduplication loop of `enhance_batch` (`seen_urls` set,
first occurrence of each non-empty URL kept; every no-URL citation kept). -/
def dedupSourcesGo : List Citation → List String → List Citation
  | [], _ => []
  | c :: rest, seen =>
    if c.sourceUrl ≠ "" ∧ c.sourceUrl ∉ seen then
      c :: dedupSourcesGo rest (c.sourceUrl :: seen)
    else if c.sourceUrl = "" then c :: dedupSourcesGo rest seen
    else dedupSourcesGo rest seen

def dedupSources (l : List Citation) : List Citation := dedupSourcesGo l []

/-- The per-person body of `ClaudeAIEnhancer.enhance_batch`. -/
def enhancePerson (p : Person) (wiki : Option WikiData) (o : EnhanceOracle) :
    Enhanced :=
  let basic := enhanceBasicInfo wiki o.gender
  let edu := enhanceFieldStage wiki eduKeywords 3000 o.education
  let career := enhanceFieldStage wiki careerKeywords 3500 o.career
  let bio := enhanceFieldStage wiki bioStageKeywords 4000 o.bio
  let org := enhanceFieldStage wiki (orgStageKeywords p) 2000 o.organization
  { name := p.name, dateOfBirth := basic.dateOfBirth, gender := basic.gender,
    education := edu.value, careerHistory := career.value, bio := bio.value,
    organization := org.value,
    sources := dedupSources (basic.sources ++ edu.sources ++ career.sources
      ++ bio.sources ++ org.sources) }

/-- `ClaudeAIEnhancer.enhance_batch` (`wiki = (wikipedia_data or
{}).get(name, {})`). -/
def enhanceBatch (people : List Person) (wikiData : List (String × WikiData))
    (oracle : String → EnhanceOracle) : List Enhanced :=
  people.map (fun p => enhancePerson p (wikiData.lookup p.name) (oracle p.name))

theorem dedupGo_nodup_disjoint : ∀ (l : List Citation) (seen : List String),
    (((dedupSourcesGo l seen).map Citation.sourceUrl).filter
      (fun u => u ≠ "")).Nodup ∧
    ∀ u ∈ ((dedupSourcesGo l seen).map Citation.sourceUrl).filter
      (fun u => u ≠ ""), u ∉ seen := by
  intro l
  induction l with
  | nil => intro seen; simp [dedupSourcesGo]
  | cons c rest ih =>
    intro seen
    unfold dedupSourcesGo
    by_cases h1 : c.sourceUrl ≠ "" ∧ c.sourceUrl ∉ seen
    · rw [if_pos h1]
      obtain ⟨ihn, ihd⟩ := ih (c.sourceUrl :: seen)
      rw [List.map_cons, List.filter_cons_of_pos (by simpa using h1.1)]
      constructor
      · apply List.Nodup.cons ?_ ihn
        intro hmem
        exact absurd (by simp) (ihd c.sourceUrl hmem)
      · intro u hu
        rcases List.mem_cons.mp hu with rfl | hu'
        · exact h1.2
        · intro hus
          exact ihd u hu' (by simp [hus])
    · rw [if_neg h1]
      by_cases h2 : c.sourceUrl = ""
      · rw [if_pos h2]
        obtain ⟨ihn, ihd⟩ := ih seen
        rw [List.map_cons, List.filter_cons_of_neg (by simp [h2])]
        exact ⟨ihn, ihd⟩
      · rw [if_neg h2]
        exact ih seen

theorem dedupGo_sublist : ∀ (l : List Citation) (seen : List String),
    (dedupSourcesGo l seen).Sublist l := by
  intro l
  induction l with
  | nil => intro seen; simp [dedupSourcesGo]
  | cons c rest ih =>
    intro seen
    unfold dedupSourcesGo
    by_cases h1 : c.sourceUrl ≠ "" ∧ c.sourceUrl ∉ seen
    · rw [if_pos h1]
      exact List.Sublist.cons₂ c (ih _)
    · rw [if_neg h1]
      by_cases h2 : c.sourceUrl = ""
      · rw [if_pos h2]
        exact List.Sublist.cons₂ c (ih _)
      · rw [if_neg h2]
        exact List.Sublist.cons c (ih _)

theorem dedupGo_keeps_nourl : ∀ (l : List Citation) (seen : List String),
    (dedupSourcesGo l seen).filter (fun c => c.sourceUrl = "")
      = l.filter (fun c => c.sourceUrl = "") := by
  intro l
  induction l with
  | nil => intro seen; simp [dedupSourcesGo]
  | cons c rest ih =>
    intro seen
    unfold dedupSourcesGo
    by_cases h1 : c.sourceUrl ≠ "" ∧ c.sourceUrl ∉ seen
    · rw [if_pos h1, List.filter_cons_of_neg (by simp [h1.1]),
        List.filter_cons_of_neg (by simp [h1.1])]
      exact ih _
    · rw [if_neg h1]
      by_cases h2 : c.sourceUrl = ""
      · rw [if_pos h2, List.filter_cons_of_pos (by simp [h2]),
        List.filter_cons_of_pos (by simp [h2])]
        rw [ih _]
      · rw [if_neg h2, List.filter_cons_of_neg (by simp [h2])]
        exact ih _

/-- **C5 (amended).**  In every record produced by `enhance_batch`, the
accumulated citation list keeps at most one citation per distinct non-empty
URL (the first occurrence, order preserved — the output is a sublist of the
accumulated `all_sources`), while every citation lacking a URL is retained
(no-URL citations are not deduplicated, contrary to the claim's "at most
one"). -/
theorem c5_citation_dedup (people : List Person)
    (wikiData : List (String × WikiData)) (oracle : String → EnhanceOracle) :
    ∀ e ∈ enhanceBatch people wikiData oracle,
      (((e.sources.map Citation.sourceUrl).filter (fun u => u ≠ "")).Nodup) ∧
      ∃ p ∈ people,
        e.sources.Sublist (rawSources p (wikiData.lookup p.name) (oracle p.name)) ∧
        e.sources.filter (fun c => c.sourceUrl = "")
          = (rawSources p (wikiData.lookup p.name) (oracle p.name)).filter
              (fun c => c.sourceUrl = "") := by
  intro e he
  obtain ⟨p, hp, rfl⟩ := List.mem_map.mp he
  have hsrc : (enhancePerson p (wikiData.lookup p.name) (oracle p.name)).sources
      = dedupSources (rawSources p (wikiData.lookup p.name) (oracle p.name)) := rfl
  rw [hsrc]
  exact ⟨(dedupGo_nodup_disjoint _ []).1,
    p, hp, dedupGo_sublist _ [], dedupGo_keeps_nourl _ []⟩

/-- Wikipedia record of the C5 counterexample: a birth date is present but
the `url` key is missing (`wiki.get('url', '') = ""`). -/
def wikiC5ex : WikiData := { birth_date := some "1940-01-01", extract := "studied at X" }

/-- Oracle of the C5 counterexample: only the education stage succeeds. -/
def oracleC5ex : EnhanceOracle := { education := some "BA" }

/-- **C5 counterexample.**  With a present birth date and a successful
education extraction but no URL in the Wikipedia record, the final citation
list contains two citations lacking a URL — the claimed "at most one
citation lacking a URL" is false. -/
theorem c5_counterexample :
    ¬ (((enhancePerson personDefault (some wikiC5ex) oracleC5ex).sources.filter
        (fun c => c.sourceUrl = "")).length ≤ 1) := by decide

theorem c5_witness :
    ((enhancePerson personDefault (some wikiC5ex) oracleC5ex)
        ∈ enhanceBatch [personDefault] [("", wikiC5ex)] (fun _ => oracleC5ex)) ∧
    ((((enhancePerson personDefault (some wikiC5ex) oracleC5ex).sources.map
        Citation.sourceUrl).filter (fun u => u ≠ "")).Nodup ∧
      ∃ p ∈ [personDefault],
        (enhancePerson personDefault (some wikiC5ex) oracleC5ex).sources.Sublist
          (rawSources p (([("", wikiC5ex)] : List (String × WikiData)).lookup p.name)
            ((fun _ => oracleC5ex) p.name)) ∧
        (enhancePerson personDefault (some wikiC5ex) oracleC5ex).sources.filter
            (fun c => c.sourceUrl = "")
          = (rawSources p (([("", wikiC5ex)] : List (String × WikiData)).lookup p.name)
              ((fun _ => oracleC5ex) p.name)).filter
                (fun c => c.sourceUrl = "")) := by
  have hmem : (enhancePerson personDefault (some wikiC5ex) oracleC5ex)
      ∈ enhanceBatch [personDefault] [("", wikiC5ex)] (fun _ => oracleC5ex) := by
    decide
  exact ⟨hmem, c5_citation_dedup [personDefault] [("", wikiC5ex)]
    (fun _ => oracleC5ex) _ hmem⟩

/-! ### `utils/retry.py` and `extractors/wikipedia_extractor.py`

External HTTP behaviour is an oracle: `searchOp k` / `pageOp k` is the
outcome of attempt `k` (`Except.error ()` models a raised
`requests.RequestException`, the retried class).  The pure success-path data
construction (`_extract_bio_data`, preprocessing and chunking of the fetched
page) is the `process` parameter; the claims below concern only the
control flow and cache writes, which never depend on it. -/

/-- The result dict of `_get_page_summary`. -/
structure PageData where
  pageid : Nat := 0
  title : String := ""
  extract : String := ""
  fullurl : String := ""
  deriving Repr, DecidableEq

/-- The retry loop of `retry_with_backoff` from attempt `attempt` with `rem`
retries left; the last attempt's exception propagates (`raise
last_exception`). -/
def retryGo (op : Nat → Except Unit α) : Nat → Nat → Except Unit α
  | attempt, 0 => op attempt
  | attempt, rem + 1 =>
    match op attempt with
    | .ok a => .ok a
    | .error _ => retryGo op (attempt + 1) rem

/-- `retry_with_backoff(max_retries=maxRetries)` applied to the operation. -/
def retryWithBackoff (maxRetries : Nat) (op : Nat → Except Unit α) :
    Except Unit α :=
  retryGo op 0 maxRetries

theorem retryGo_all_error (op : Nat → Except Unit α) :
    ∀ (rem attempt : Nat), (∀ k, attempt ≤ k → k ≤ attempt + rem →
      op k = .error ()) → retryGo op attempt rem = .error () := by
  intro rem
  induction rem with
  | zero =>
    intro attempt h
    exact h attempt (Nat.le_refl _) (Nat.le_refl _)
  | succ rem ih =>
    intro attempt h
    unfold retryGo
    rw [h attempt (Nat.le_refl _) (by omega)]
    exact ih (attempt + 1) (fun k hk1 hk2 => h k (by omega) (by omega))

/-- Exhausting all retries with transport errors propagates the failure. -/
theorem retryWithBackoff_all_error (maxRetries : Nat)
    (op : Nat → Except Unit α) (h : ∀ k, k ≤ maxRetries → op k = .error ()) :
    retryWithBackoff maxRetries op = .error () :=
  retryGo_all_error op maxRetries 0 (fun k _ hk2 => h k (by omega))

/-- The outcome of one `fetch_person_data` call: the returned value, the
cache afterwards, and how many external operations (search / page fetch)
were started. -/
structure FetchOutcome where
  result : Option WikiData := none
  cache : List (String × Option WikiData) := []
  externalCalls : Nat := 0
  deriving Repr, DecidableEq

/-- `WikipediaExtractor.fetch_person_data`.  `if not name` only catches the
empty string; a cache entry (possibly the negative `None`) is returned
without external calls; a transport failure that survives retries is caught
by the outer handler (log, return `None`) without touching the cache; a
falsy search result or falsy page data writes a negative cache entry. -/
def fetchPersonData (cache : List (String × Option WikiData)) (name : String)
    (searchOp : Nat → Except Unit (Option String))
    (pageOp : Nat → Except Unit (Option PageData))
    (process : PageData → WikiData) : FetchOutcome :=
  if name = "" then { result := none, cache := cache, externalCalls := 0 }
  else
    match cache.lookup name with
    | some cached => { result := cached, cache := cache, externalCalls := 0 }
    | none =>
      match retryWithBackoff 3 searchOp with
      | .error _ => { result := none, cache := cache, externalCalls := 1 }
      | .ok r =>
        if truthy r then
          match retryWithBackoff 3 pageOp with
          | .error _ => { result := none, cache := cache, externalCalls := 2 }
          | .ok none =>
            { result := none, cache := dset cache name none, externalCalls := 2 }
          | .ok (some page) =>
            { result := some (process page),
              cache := dset cache name (some (process page)), externalCalls := 2 }
        else
          { result := none, cache := dset cache name none, externalCalls := 1 }

/-- **C7 counterexample.**  A whitespace-only name is truthy in Python, so
`fetch_person_data " "` does issue the external search call, and (here, with
a search that finds nothing) even writes a negative cache entry — the
claimed empty-or-blank short-circuit holds only for the empty string. -/
theorem c7_counterexample :
    (fetchPersonData [] " " (fun _ => Except.ok none) (fun _ => Except.ok none)
        (fun _ => {})).externalCalls = 1 ∧
    (fetchPersonData [] " " (fun _ => Except.ok none) (fun _ => Except.ok none)
        (fun _ => {})).cache = [(" ", none)] := by
  constructor <;> decide

/-- **C7 (amended).**  For the empty person name, `fetch_person_data`
returns a not-found result without issuing any external call and without
writing to the cache; whitespace-only names are not short-circuited (they
proceed to the search call, see the counterexample). -/
theorem c7_empty_name_no_call (cache : List (String × Option WikiData))
    (searchOp : Nat → Except Unit (Option String))
    (pageOp : Nat → Except Unit (Option PageData))
    (process : PageData → WikiData) :
    fetchPersonData cache "" searchOp pageOp process
      = { result := none, cache := cache, externalCalls := 0 } := rfl

/-- **C8.**  On a cache miss: a transport exception persisting through all
retry attempts of the search or of the page fetch makes `fetch_person_data`
return a not-found result while leaving the cache unchanged; and a negative
cache entry for the name can only arise when the external calls succeed but
genuinely find no page or no content. -/
theorem c8_transient_failures_not_cached
    (cache : List (String × Option WikiData)) (name : String)
    (searchOp : Nat → Except Unit (Option String))
    (pageOp : Nat → Except Unit (Option PageData))
    (process : PageData → WikiData)
    (hname : name ≠ "") (hmiss : cache.lookup name = none) :
    ((∀ k, k ≤ 3 → searchOp k = .error ()) →
      (fetchPersonData cache name searchOp pageOp process).result = none ∧
      (fetchPersonData cache name searchOp pageOp process).cache = cache) ∧
    (∀ r, retryWithBackoff 3 searchOp = Except.ok r → truthy r = true →
      (∀ k, k ≤ 3 → pageOp k = .error ()) →
      (fetchPersonData cache name searchOp pageOp process).result = none ∧
      (fetchPersonData cache name searchOp pageOp process).cache = cache) ∧
    ((fetchPersonData cache name searchOp pageOp process).cache.lookup name
        = some none →
      (∃ r, retryWithBackoff 3 searchOp = Except.ok r ∧ truthy r = false) ∨
      (∃ r, retryWithBackoff 3 searchOp = Except.ok r ∧ truthy r = true ∧
        retryWithBackoff 3 pageOp = Except.ok none)) := by
  refine ⟨?_, ?_, ?_⟩
  · intro hs
    unfold fetchPersonData
    rw [if_neg hname, hmiss, retryWithBackoff_all_error 3 searchOp hs]
    exact ⟨rfl, rfl⟩
  · intro r hr htr hp
    unfold fetchPersonData
    rw [if_neg hname, hmiss, hr]
    dsimp only
    rw [if_pos htr, retryWithBackoff_all_error 3 pageOp hp]
    exact ⟨rfl, rfl⟩
  · intro hneg
    unfold fetchPersonData at hneg
    rw [if_neg hname, hmiss] at hneg
    rcases hs : retryWithBackoff 3 searchOp with e | r
    · rw [hs] at hneg
      dsimp only at hneg
      rw [hmiss] at hneg
      cases hneg
    · rw [hs] at hneg
      dsimp only at hneg
      by_cases htr : truthy r
      · rw [if_pos htr] at hneg
        rcases hp : retryWithBackoff 3 pageOp with e | pg
        · rw [hp] at hneg
          dsimp only at hneg
          rw [hmiss] at hneg
          cases hneg
        · rcases pg with _ | page
          · exact Or.inr ⟨r, rfl, htr, rfl⟩
          · rw [hp] at hneg
            dsimp only at hneg
            rw [lookup_dset, if_pos rfl] at hneg
            cases hneg
      · exact Or.inl ⟨r, rfl, by rw [Bool.not_eq_true] at htr; exact htr⟩

theorem c8_witness :
    (("Al" : String) ≠ "" ∧
      (([] : List (String × Option WikiData)).lookup "Al" = none) ∧
      (∀ k, k ≤ 3 → (fun _ => (Except.error () : Except Unit (Option String))) k
        = .error ())) ∧
    ((fetchPersonData [] "Al" (fun _ => Except.error ())
        (fun _ => Except.ok none) (fun _ => {})).result = none ∧
      (fetchPersonData [] "Al" (fun _ => Except.error ())
        (fun _ => Except.ok none) (fun _ => {})).cache = []) := by
  refine ⟨⟨by decide, rfl, fun k hk => rfl⟩, ?_⟩
  exact (c8_transient_failures_not_cached [] "Al" (fun _ => Except.error ())
    (fun _ => Except.ok none) (fun _ => {}) (by decide) rfl).1 (fun k hk => rfl)

end DataProc
